import Mathlib

/-!
# log_hext: verification of the hext packet-dump logger

Shallow embedding of `src/loggers/log_hext.cc` (the `log_hext` plugin of
snort3_extra) and theorems about the text it hands to its sink.

Conventions of the embedding

* Machine integers are values of `Fin (2^w)`; every arithmetic step on them is
  written on the underlying natural number with an explicit `% 2^w`.
* The two local arrays of `log_data` are memories `Nat → Char` with a fixed
  size; a store outside the array, a string read that runs past the array and a
  print through a null or terminated sink handle make the function return
  `none`.
* The arrays are not initialised by the source, so their initial contents are a
  parameter (`Frame`) over which every theorem quantifies.
-/

namespace LogHext

/-! ## Machine types -/

/-- An octet, `uint8_t`. -/
abbrev uint8_t := Fin 256

/-- A 16 bit unsigned integer, `uint16_t`. -/
abbrev uint16_t := Fin 65536

/-- A 32 bit unsigned integer, `uint32_t` and `unsigned`. -/
abbrev uint32_t := Fin 4294967296

/-- A 64 bit unsigned integer, `unsigned long`. -/
abbrev uint64_t := Fin 18446744073709551616

/-- Reduction of a natural number to `unsigned` (32 bit wrap-around). -/
def wrap32 (n : Nat) : uint32_t := ⟨n % 4294967296, Nat.mod_lt _ (by decide)⟩

/-- Reduction of a natural number to `unsigned long` (64 bit wrap-around). -/
def wrap64 (n : Nat) : uint64_t := ⟨n % 18446744073709551616, Nat.mod_lt _ (by decide)⟩

/-! ## Library pieces used by the logger -/

/-- Modelled from the spec: `isprint` of `<ctype.h>` is not part of the
repository; it is the printable test of the C locale, which the spec gives as
the range 32 to 126. -/
def isprint (c : Nat) : Bool := decide (32 ≤ c) && decide (c ≤ 126)

/-- One uppercase hexadecimal digit, as the `X` conversion of `printf` writes it. -/
def hexDigit (d : Nat) : Char :=
  if d < 10 then Char.ofNat (48 + d) else Char.ofNat (55 + d)

/-- The text of the `%u` and (for a non-negative argument) `%d` conversions:
the decimal digits of the value, no padding. -/
def fmt_u (n : Nat) : List Char := Nat.toDigits 10 n

/-- Modelled from the spec: `TextLog` (log/text_log.h) belongs to the host; the
spec treats it as a sink with an append operation. The model keeps the
arguments of `TextLog_Init`, the text appended so far, in order, and whether
the object is still allocated. The sink's own buffering and size limiting are
not modelled: `text` is what the logger has handed over. -/
structure TextLog where
  name : String
  maxBuf : Nat
  maxFile : Nat
  text : List Char
  live : Bool
deriving DecidableEq, Repr

/-- Modelled from the spec: `TextLog_Init` of the host creates the sink, empty. -/
def TextLog_Init (name : String) (maxBuf maxFile : Nat) : TextLog :=
  { name := name, maxBuf := maxBuf, maxFile := maxFile, text := [], live := true }

/-- Modelled from the spec: `TextLog_Print` of the host appends the formatted
text (here already formatted by the caller) to the sink. The handle is used
without a null test, so a null or terminated handle is undefined, `none`. -/
def TextLog_Print (h : Option TextLog) (s : List Char) : Option TextLog :=
  match h with
  | some t => if t.live then some { t with text := t.text ++ s } else none
  | none => none

/-- Modelled from the spec: `TextLog_NewLine` of the host appends one line break. -/
def TextLog_NewLine (h : Option TextLog) : Option TextLog :=
  TextLog_Print h ['\n']

/-- Modelled from the spec: `TextLog_Term` of the host flushes and frees the
sink; the text handed over stays what it was. -/
def TextLog_Term (t : TextLog) : TextLog := { t with live := false }

/-- Modelled from the spec: `sfip_t` and `sfip_ntop` (sfip/sf_ip.h) belong to
the host; the spec treats address formatting as a supplied utility. An address
is represented by the text `sfip_ntop` writes for it. -/
structure sfip_t where
  ntop : List Char
deriving DecidableEq, Repr

/-- Modelled from the spec: the string `sfip_ntop` leaves in the caller's buffer. -/
def sfip_ntop (a : sfip_t) : List Char := a.ntop

/-- Modelled from the spec: `Packet` (protocols/packet.h) is supplied by the
host: capture length `pkth->caplen`, raw bytes `pkt`, payload `data` and
`dsize`, the result of `has_tcp_data()`, the addresses returned by
`ptrs.ip_api.get_src()` and `get_dst()`, and the ports `ptrs.sp`, `ptrs.dp`. -/
structure Packet where
  caplen : uint32_t
  pkt : List uint8_t
  data : List uint8_t
  dsize : uint16_t
  has_tcp_data : Bool
  src : sfip_t
  dst : sfip_t
  sp : uint16_t
  dp : uint16_t
deriving DecidableEq, Repr

/-! ## File-scope state -/

/-- The two `THREAD_LOCAL` variables of the file: `hext_log` (null is `none`)
and `s_pkt_num`. -/
structure Globals where
  hext_log : Option TextLog
  s_pkt_num : uint32_t
deriving DecidableEq, Repr

/-- The initial values of the file-scope variables: `nullptr` and `0`. -/
def Globals.init : Globals := { hext_log := none, s_pkt_num := 0 }

/-! ## impl stuff -/

/-- The constant `LOG_CHARS`. -/
def LOG_CHARS : Nat := 20

/-- Size of `char hex[(3*LOG_CHARS)+1]`. -/
def HEX_SIZE : Nat := 3 * LOG_CHARS + 1

/-- Size of `char txt[LOG_CHARS+1]`. -/
def TXT_SIZE : Nat := LOG_CHARS + 1

/-- The indeterminate initial contents of the local arrays `hex` and `txt`. -/
structure Frame where
  hex : Nat → Char
  txt : Nat → Char

/-- Store of one character into an array of the given size; `none` when the
index is outside the array. -/
def store (size : Nat) (a : Nat → Char) (i : Nat) (c : Char) : Option (Nat → Char) :=
  if i < size then some (fun j => if j = i then c else a j) else none

/-- Read of the C string that starts at index `i`, with `fuel` array cells
left; `none` when no terminator is found inside the array. -/
def cstrFrom (a : Nat → Char) : Nat → Nat → Option (List Char)
  | 0, _ => none
  | fuel + 1, i =>
    if a i = Char.ofNat 0 then some []
    else (cstrFrom a fuel (i + 1)).map (fun r => a i :: r)

/-- The C string held by an array of the given size (the `%s` conversion). -/
def cstr (size : Nat) (a : Nat → Char) : Option (List Char) := cstrFrom a size 0

/-- The call `sprintf(hex + off, "%2.02X ", byte)`: two uppercase digits, a
space and the terminator, stored at `off .. off+3`. -/
def sprintf_hex (hex : Nat → Char) (off : Nat) (byte : uint8_t) : Option (Nat → Char) := do
  let h ← store HEX_SIZE hex off (hexDigit (byte.val / 16))
  let h ← store HEX_SIZE h (off + 1) (hexDigit (byte.val % 16))
  let h ← store HEX_SIZE h (off + 2) ' '
  store HEX_SIZE h (off + 3) (Char.ofNat 0)

/-- The function `log_raw`: prints `"\n# %u [%u]\n"` with `s_pkt_num++` and
the capture length. -/
def log_raw (p : Packet) (g : Globals) : Option Globals := do
  let t ← TextLog_Print g.hext_log
    (['\n', '#', ' '] ++ fmt_u g.s_pkt_num.val ++ [' ', '['] ++ fmt_u p.caplen.val ++ [']', '\n'])
  some { hext_log := some t, s_pkt_num := wrap32 (g.s_pkt_num.val + 1) }

/-- The function `log_header`: prints `"\n$packet %s %d -> %s %d\n"` with the
two addresses in text form and the two ports. -/
def log_header (p : Packet) (g : Globals) : Option Globals := do
  let src := sfip_ntop p.src
  let dst := sfip_ntop p.dst
  let t ← TextLog_Print g.hext_log
    (['\n', '$', 'p', 'a', 'c', 'k', 'e', 't', ' '] ++ src ++ [' '] ++ fmt_u p.sp.val
      ++ [' ', '-', '>', ' '] ++ dst ++ [' '] ++ fmt_u p.dp.val ++ ['\n'])
  some { g with hext_log := some t }

/-- The locals of `log_data` together with the file-scope state. -/
structure DataState where
  hex : Nat → Char
  txt : Nat → Char
  odx : Nat
  g : Globals

/-- The body of the `for` loop of `log_data` for the byte at `idx`. -/
def log_data_body (p : List uint8_t) (idx : Nat) (s : DataState) : Option DataState := do
  let byte ← p[idx]?
  let hex ← sprintf_hex s.hex (3 * s.odx) byte
  let txt ← store TXT_SIZE s.txt s.odx (if isprint byte.val then Char.ofNat byte.val else '.')
  let odx := s.odx + 1
  if odx = LOG_CHARS then
    let hex ← store HEX_SIZE hex (3 * odx) (Char.ofNat 0)
    let txt ← store TXT_SIZE txt odx (Char.ofNat 0)
    let hs ← cstr HEX_SIZE hex
    let ts ← cstr TXT_SIZE txt
    let t ← TextLog_Print s.g.hext_log (['x'] ++ hs ++ [' ', '#', ' '] ++ ts ++ ['\n'])
    some { hex := hex, txt := txt, odx := 0, g := { s.g with hext_log := some t } }
  else
    some { hex := hex, txt := txt, odx := odx, g := s.g }

/-- The loop `for (idx = 0; idx < n; idx++)`, entered at `idx` with `k = n - idx`
iterations to go. -/
def log_data_loop (p : List uint8_t) : Nat → Nat → DataState → Option DataState
  | 0, _, s => some s
  | k + 1, idx, s => (log_data_body p idx s).bind (log_data_loop p k (idx + 1))

/-- The loop `while (odx++ < LOG_CHARS) TextLog_Print(hext_log, "   ")`. The
first argument bounds the number of tests; `log_data` enters it with
`LOG_CHARS + 1`, which the loop never exhausts since `odx` only grows. -/
def log_data_pad : Nat → Nat → Option TextLog → Option TextLog
  | 0, _, _ => none
  | fuel + 1, odx, h =>
    if odx < LOG_CHARS then
      (TextLog_Print h [' ', ' ', ' ']).bind (fun t => log_data_pad fuel (odx + 1) (some t))
    else h

/-- The function `log_data(p, n)`. -/
def log_data (fr : Frame) (p : List uint8_t) (n : Nat) (g : Globals) : Option Globals := do
  let t ← TextLog_NewLine g.hext_log
  let s ← log_data_loop p n 0 { hex := fr.hex, txt := fr.txt, odx := 0, g := { g with hext_log := some t } }
  if s.odx ≠ 0 then
    let hex ← store HEX_SIZE s.hex (3 * s.odx) (Char.ofNat 0)
    let txt ← store TXT_SIZE s.txt s.odx (Char.ofNat 0)
    let hs ← cstr HEX_SIZE hex
    let t ← TextLog_Print s.g.hext_log (['x'] ++ hs)
    let t ← log_data_pad (LOG_CHARS + 1) s.odx (some t)
    let ts ← cstr TXT_SIZE txt
    let t ← TextLog_Print (some t) ([' ', '#', ' '] ++ ts ++ ['\n'])
    some { s.g with hext_log := some t }
  else
    some s.g

/-! ## module stuff -/

/-- The constant `S_NAME`. -/
def S_NAME : String := "log_hext"

/-- The constant `F_NAME`, `S_NAME ".txt"`. -/
def F_NAME : String := S_NAME ++ ".txt"

/-- Modelled from the spec: `Value` (framework/value.h) belongs to the host,
which delivers type-checked scalars: the name of the parameter the value is
for (tested by `is`) and the results of `get_bool` and `get_long`. -/
structure Value where
  name : String
  get_bool : Bool
  get_long : Int
deriving DecidableEq, Repr

/-- Modelled from the spec: `Value::is` compares the parameter name. -/
def Value.is (v : Value) (s : String) : Bool := decide (v.name = s)

/-- Conversion of a `long` to `unsigned long`. -/
def long_to_ulong (x : Int) : uint64_t := wrap64 (x % 18446744073709551616).toNat

/-- Conversion of a `long` to `unsigned`. -/
def long_to_unsigned (x : Int) : uint32_t := wrap32 (x % 4294967296).toNat

/-- The data members of `HextModule`. -/
structure HextModule where
  file : Bool
  raw : Bool
  limit : uint64_t
  units : uint32_t
deriving DecidableEq, Repr

/-- The method `HextModule::set`: the returned flag and the module afterwards. -/
def HextModule.set (m : HextModule) (v : Value) : Bool × HextModule :=
  if v.is "file" then (true, { m with file := v.get_bool })
  else if v.is "raw" then (true, { m with raw := v.get_bool })
  else if v.is "limit" then (true, { m with limit := long_to_ulong v.get_long })
  else if v.is "units" then (true, { m with units := long_to_unsigned v.get_long })
  else (false, m)

/-- The method `HextModule::begin`. -/
def HextModule.begin (_m : HextModule) : Bool × HextModule :=
  (true, { file := false, raw := false, limit := 0, units := 0 })

/-- The loop `while ( units-- ) limit *= 1024;`. Each test reads `units` and
decrements it, wrapping below zero. The first argument bounds the number of
tests; `end_` enters the loop with `units + 1`, which is the number of tests
the loop makes. -/
def end_while : Nat → HextModule → HextModule
  | 0, m => m
  | fuel + 1, m =>
    let tested := m.units.val
    let m1 : HextModule := { m with units := wrap32 (tested + 4294967295) }
    if tested ≠ 0 then end_while fuel { m1 with limit := wrap64 (m1.limit.val * 1024) }
    else m1

/-- The method `HextModule::end`. -/
def HextModule.end_ (m : HextModule) : Bool × HextModule :=
  (true, end_while (m.units.val + 1) m)

/-! ## logger stuff -/

/-- The data members of `HextLogger`. -/
structure HextLogger where
  file : String
  limit : uint64_t
  raw : Bool
deriving DecidableEq, Repr

/-- The constructor `HextLogger::HextLogger(HextModule*)`. -/
def HextLogger.ctor (m : HextModule) : HextLogger :=
  { file := if m.file then F_NAME else "stdout", limit := m.limit, raw := m.raw }

/-- The method `HextLogger::open`. -/
def HextLogger.open_ (self : HextLogger) (g : Globals) : Globals :=
  { g with hext_log := some (TextLog_Init self.file 65536 self.limit.val) }

/-- The method `HextLogger::close`: `TextLog_Term` is called when the handle is
not null; the handle itself is left as it is. Terminating a sink twice is
undefined, `none`. -/
def HextLogger.close (_self : HextLogger) (g : Globals) : Option Globals :=
  match g.hext_log with
  | some t => if t.live then some { g with hext_log := some (TextLog_Term t) } else none
  | none => some g

/-- The method `HextLogger::log`. -/
def HextLogger.log (self : HextLogger) (fr : Frame) (p : Packet) (g : Globals) :
    Option Globals :=
  if self.raw then
    (log_raw p g).bind (log_data fr p.pkt p.caplen.val)
  else if p.has_tcp_data then
    (log_header p g).bind (log_data fr p.data p.dsize.val)
  else
    some g

/-- A run of the logger: `log` called on each packet in order, each call with
its own initial contents of the local arrays. -/
def logAll (self : HextLogger) : List (Frame × Packet) → Globals → Option Globals
  | [], g => some g
  | c :: rest, g => (self.log c.1 c.2 g).bind (logAll self rest)

/-! ## Reference description of the dump

The text `log_data` is meant to produce, written over the byte list rather
than over the two arrays. The theorems below prove that the code produces it. -/

/-- The three characters one byte contributes to the hex column. -/
def hexGroup (b : uint8_t) : List Char :=
  [hexDigit (b.val / 16), hexDigit (b.val % 16), ' ']

/-- The character one byte contributes to the ASCII column. -/
def txtChar (b : uint8_t) : Char :=
  if isprint b.val then Char.ofNat b.val else '.'

/-- The hex column of a group of bytes. -/
def hexColumn (c : List uint8_t) : List Char := c.flatMap hexGroup

/-- The padding of `k` unfilled slots: `k` groups of three spaces. -/
def padding (k : Nat) : List Char := (List.replicate k [' ', ' ', ' ']).flatten

/-- One data line, without its line break, for a group of at most 20 bytes. -/
def dataLine (c : List uint8_t) : List Char :=
  ['x'] ++ hexColumn c ++ padding (LOG_CHARS - c.length) ++ [' ', '#', ' '] ++ c.map txtChar

/-- The `i`-th group of 20 bytes of a buffer (the last one may be shorter). -/
def chunk (l : List uint8_t) (i : Nat) : List uint8_t := (l.drop (LOG_CHARS * i)).take LOG_CHARS

/-- The data lines of a buffer, in order. -/
def dataLines (l : List uint8_t) : List (List Char) :=
  (List.range ((l.length + 19) / 20)).map (fun i => dataLine (chunk l i))

/-- The text made of the given lines, each followed by a line break. -/
def unlines (ls : List (List Char)) : List Char := ls.flatMap (fun ln => ln ++ ['\n'])

/-- The whole dump of a buffer: a line break, then the data lines. -/
def dumpText (l : List uint8_t) : List Char := '\n' :: unlines (dataLines l)

/-- One step of the line accumulation: the pending group and the text emitted
so far, after one more byte. -/
def accStep (st : List uint8_t × List Char) (b : uint8_t) : List uint8_t × List Char :=
  if st.1.length + 1 = LOG_CHARS then ([], st.2 ++ (dataLine (st.1 ++ [b]) ++ ['\n']))
  else (st.1 ++ [b], st.2)

/-- The sink with its text replaced. -/
def TextLog.withText (t : TextLog) (s : List Char) : TextLog := { t with text := s }

/-- The sink after more text has been appended. -/
def TextLog.append (t : TextLog) (s : List Char) : TextLog := { t with text := t.text ++ s }

/-- The relation between the state of the loop of `log_data` and the pending
group `cur` and emitted text `out`: the arrays hold the two columns of `cur`. -/
structure Rep (t0 : TextLog) (num : uint32_t) (s : DataState) (cur : List uint8_t)
    (out : List Char) : Prop where
  odx : s.odx = cur.length
  lt : cur.length < LOG_CHARS
  hex : ∀ j, j < 3 * cur.length → (hexColumn cur)[j]? = some (s.hex j)
  txt : ∀ j, j < cur.length → (cur.map txtChar)[j]? = some (s.txt j)
  g : s.g = { hext_log := some (t0.withText out), s_pkt_num := num }

/-! ## Reading a dump back -/

/-- The value of an uppercase hexadecimal digit character. -/
def hexValue (c : Char) : Nat :=
  if c.toNat < 58 then c.toNat - 48 else c.toNat - 55

/-- Decoding of the text of a hex column: spaces are skipped and two successive
digits make one byte. The second argument is the high digit already read. -/
def decodeGroups : List Char → Option Char → List Nat
  | [], _ => []
  | c :: rest, none => if c = ' ' then decodeGroups rest none else decodeGroups rest (some c)
  | c :: rest, some h => (16 * hexValue h + hexValue c) :: decodeGroups rest none

/-- The bytes read back from one data line: the text after the leading `x` and
before the `#` of the separator, decoded. -/
def decodeLine (line : List Char) : List Nat :=
  decodeGroups ((line.drop 1).takeWhile (fun c => c != '#')) none

/-! ## Reference description of the records -/

/-- The header line of a raw record, with the line break before and after. -/
def rawHeader (seq : Nat) (caplen : Nat) : List Char :=
  ['\n', '#', ' '] ++ fmt_u seq ++ [' ', '['] ++ fmt_u caplen ++ [']', '\n']

/-- The header line of a session record, with the line break before and after. -/
def sessionHeader (src : List Char) (sp : Nat) (dst : List Char) (dp : Nat) : List Char :=
  ['\n', '$', 'p', 'a', 'c', 'k', 'e', 't', ' '] ++ src ++ [' '] ++ fmt_u sp
    ++ [' ', '-', '>', ' '] ++ dst ++ [' '] ++ fmt_u dp ++ ['\n']

/-- The raw record of a packet that gets the sequence number `seq`. -/
def rawRecord (seq : Nat) (p : Packet) : List Char :=
  rawHeader seq p.caplen.val ++ dumpText (p.pkt.take p.caplen.val)

/-- The raw records of a sequence of packets numbered `seq, seq + 1, ...`. -/
def rawRecords : Nat → List Packet → List Char
  | _, [] => []
  | seq, p :: ps => rawRecord seq p ++ rawRecords (seq + 1) ps

/-- The raw records of a sequence of packets numbered `seq, seq + 1, ...`
reduced modulo `2^32`. -/
def rawRecordsWrap : Nat → List Packet → List Char
  | _, [] => []
  | seq, p :: ps => rawRecord (seq % 4294967296) p ++ rawRecordsWrap (seq + 1) ps

/-! ## Concrete inputs used to exercise the theorems -/

/-- Some initial contents of the local arrays. -/
def frame0 : Frame := { hex := fun _ => 'j', txt := fun _ => 'k' }

/-- A freshly opened sink on the standard output. -/
def sink0 : TextLog := TextLog_Init "stdout" 65536 0

/-- The file-scope state right after the first `open`. -/
def open0 : Globals := { hext_log := some sink0, s_pkt_num := 0 }

/-- A buffer of 23 bytes: one full line and a partial line of three bytes. -/
def bytes23 : List uint8_t :=
  [0x47, 0x45, 0x54, 0x20, 0x2F, 0x20, 0x48, 0x54, 0x54, 0x50, 0x2F, 0x31, 0x2E, 0x31, 0x0D,
   0x0A, 0x00, 0x7F, 0xFF, 0x23, 0x41, 0x42, 0x0A]

/-- A logger in raw mode. -/
def rawLogger : HextLogger := { file := "stdout", limit := 0, raw := true }

/-- A logger in payload mode. -/
def payloadLogger : HextLogger := { file := "stdout", limit := 0, raw := false }

/-- A packet of three captured bytes, without TCP payload. -/
def pkt3 : Packet :=
  { caplen := 3, pkt := [0x41, 0x42, 0x0A], data := [], dsize := 0, has_tcp_data := false,
    src := ⟨['1', '0', '.', '0', '.', '0', '.', '1']⟩,
    dst := ⟨['1', '0', '.', '0', '.', '0', '.', '2']⟩, sp := 1234, dp := 80 }

/-- A packet of 23 captured bytes whose last three bytes are TCP payload. -/
def pktTcp : Packet :=
  { caplen := 23, pkt := bytes23, data := [0x41, 0x42, 0x0A], dsize := 3,
    has_tcp_data := true,
    src := ⟨['1', '0', '.', '0', '.', '0', '.', '1']⟩,
    dst := ⟨[':', ':', '1']⟩, sp := 49152, dp := 80 }

/-- The file-scope state with an open sink and the counter at its largest value. -/
def openMax : Globals := { hext_log := some sink0, s_pkt_num := 4294967295 }

/-- A module configured with limit `2^34` and units `G`. -/
def moduleBig : HextModule := { file := false, raw := false, limit := 17179869184, units := 3 }

/-- A module configured with limit 5 and units `M`. -/
def module5M : HextModule := { file := true, raw := false, limit := 5, units := 2 }

/-- A buffer of 20 bytes, one full line; four of them are spaces. -/
def bytes20 : List uint8_t :=
  [0x20, 0x20, 0x20, 0x20, 0x48, 0x45, 0x4C, 0x4C, 0x4F, 0x00, 0x01, 0x02, 0x7E, 0x7F, 0x80,
   0xFF, 0x23, 0x0A, 0x0D, 0x58]

/-- A packet whose TCP payload is the 20 bytes of `bytes20`. -/
def pktTcp20 : Packet :=
  { caplen := 23, pkt := bytes23, data := bytes20, dsize := 20, has_tcp_data := true,
    src := ⟨['1', '0', '.', '0', '.', '0', '.', '1']⟩,
    dst := ⟨['1', '0', '.', '0', '.', '0', '.', '2']⟩, sp := 49152, dp := 443 }

/-- The file-scope state after a session has been closed: the handle still
refers to the terminated sink. -/
def closed0 : Globals := { hext_log := some (TextLog_Term sink0), s_pkt_num := 0 }

/-! ## Facts about the reference description -/

set_option maxRecDepth 100000 in
theorem hexGroup_chars : ∀ b : uint8_t, ∀ c ∈ hexGroup b,
    c ≠ Char.ofNat 0 ∧ c ≠ '\n' ∧ c ≠ '#' := by
  decide

set_option maxRecDepth 100000 in
theorem txtChar_chars : ∀ b : uint8_t,
    txtChar b ≠ Char.ofNat 0 ∧ txtChar b ≠ '\n' := by
  decide

theorem hexColumn_chars (c : List uint8_t) : ∀ x ∈ hexColumn c,
    x ≠ Char.ofNat 0 ∧ x ≠ '\n' ∧ x ≠ '#' := by
  intro x hx
  simp only [hexColumn, List.mem_flatMap] at hx
  obtain ⟨b, _, hb⟩ := hx
  exact hexGroup_chars b x hb

theorem hexColumn_length (c : List uint8_t) : (hexColumn c).length = 3 * c.length := by
  induction c with
  | nil => rfl
  | cons b c ih =>
    simp only [hexColumn, List.flatMap_cons, List.length_append, List.length_cons] at ih ⊢
    simp only [hexGroup, List.length_cons, List.length_nil, ih]
    omega

theorem hexColumn_append (c d : List uint8_t) :
    hexColumn (c ++ d) = hexColumn c ++ hexColumn d := by
  simp [hexColumn, List.flatMap_append]

theorem padding_length (k : Nat) : (padding k).length = 3 * k := by
  induction k with
  | zero => rfl
  | succ k ih =>
    simp only [padding, List.replicate_succ, List.flatten_cons, List.length_append,
      List.length_cons, List.length_nil] at ih ⊢
    omega

theorem padding_chars (k : Nat) : ∀ x ∈ padding k, x = ' ' := by
  intro x hx
  simp only [padding, List.mem_flatten, List.mem_replicate] at hx
  obtain ⟨l, ⟨_, rfl⟩, hl⟩ := hx
  simpa using hl

/-! ## Facts about the arrays -/

theorem cstrFrom_eq (a : Nat → Char) (l : List Char) :
    ∀ (fuel i : Nat), l.length < fuel →
      (∀ j, j < l.length → l[j]? = some (a (i + j))) →
      a (i + l.length) = Char.ofNat 0 → (∀ x ∈ l, x ≠ Char.ofNat 0) →
      cstrFrom a fuel i = some l := by
  induction l with
  | nil =>
    intro fuel i hf _ hz _
    cases fuel with
    | zero => simp at hf
    | succ fuel => simpa [cstrFrom] using hz
  | cons c l ih =>
    intro fuel i hf hget hz hne
    cases fuel with
    | zero => simp at hf
    | succ fuel =>
      have h0 : a i = c := by
        have := hget 0 (by simp)
        simpa using this.symm
      have hc : a i ≠ Char.ofNat 0 := by
        rw [h0]; exact hne c (by simp)
      have hrec : cstrFrom a fuel (i + 1) = some l := by
        apply ih
        · simpa using hf
        · intro j hj
          have := hget (j + 1) (by simpa using hj)
          simpa [Nat.add_assoc, Nat.add_comm 1 j] using this
        · simpa [Nat.add_assoc, Nat.add_comm 1 l.length] using hz
        · intro x hx; exact hne x (by simp [hx])
      rw [cstrFrom, if_neg hc, hrec, h0]
      rfl

theorem cstr_eq (size : Nat) (a : Nat → Char) (l : List Char) (hlen : l.length < size)
    (hget : ∀ j, j < l.length → l[j]? = some (a j))
    (hz : a l.length = Char.ofNat 0) (hne : ∀ x ∈ l, x ≠ Char.ofNat 0) :
    cstr size a = some l := by
  unfold cstr
  apply cstrFrom_eq a l size 0 hlen
  · intro j hj; simpa using hget j hj
  · simpa using hz
  · exact hne

theorem sprintf_hex_eq (hex : Nat → Char) (off : Nat) (byte : uint8_t) (h : off + 3 < HEX_SIZE) :
    sprintf_hex hex off byte = some (fun j =>
      if j = off + 3 then Char.ofNat 0
      else if j = off + 2 then ' '
      else if j = off + 1 then hexDigit (byte.val % 16)
      else if j = off then hexDigit (byte.val / 16)
      else hex j) := by
  have h0 : off < HEX_SIZE := by omega
  have h1 : off + 1 < HEX_SIZE := by omega
  have h2 : off + 2 < HEX_SIZE := by omega
  simp [sprintf_hex, store, h, h0, h1, h2]

theorem hexColumn_snoc_get (cur : List uint8_t) (b : uint8_t) (hex : Nat → Char)
    (h : ∀ j, j < 3 * cur.length → (hexColumn cur)[j]? = some (hex j)) :
    ∀ j, j < 3 * (cur.length + 1) → (hexColumn (cur ++ [b]))[j]? = some
      (if j = 3 * cur.length + 3 then Char.ofNat 0
       else if j = 3 * cur.length + 2 then ' '
       else if j = 3 * cur.length + 1 then hexDigit (b.val % 16)
       else if j = 3 * cur.length then hexDigit (b.val / 16)
       else hex j) := by
  intro j hj
  rw [hexColumn_append]
  by_cases hlt : j < 3 * cur.length
  · rw [List.getElem?_append_left (by rw [hexColumn_length]; exact hlt), h j hlt]
    have e3 : j ≠ 3 * cur.length + 3 := by omega
    have e2 : j ≠ 3 * cur.length + 2 := by omega
    have e1 : j ≠ 3 * cur.length + 1 := by omega
    have e0 : j ≠ 3 * cur.length := by omega
    simp only [if_neg e3, if_neg e2, if_neg e1, if_neg e0]
  · rw [List.getElem?_append_right (by rw [hexColumn_length]; omega), hexColumn_length]
    have hcase : j = 3 * cur.length ∨ j = 3 * cur.length + 1 ∨ j = 3 * cur.length + 2 := by omega
    rcases hcase with e | e | e <;> subst e <;> simp [hexColumn, hexGroup]

theorem txt_snoc_get (cur : List uint8_t) (b : uint8_t) (txt : Nat → Char)
    (h : ∀ j, j < cur.length → (cur.map txtChar)[j]? = some (txt j)) :
    ∀ j, j < cur.length + 1 → ((cur ++ [b]).map txtChar)[j]? = some
      (if j = cur.length then txtChar b else txt j) := by
  intro j hj
  rw [List.map_append]
  by_cases hlt : j < cur.length
  · rw [List.getElem?_append_left (by simpa using hlt), h j hlt]
    have e0 : j ≠ cur.length := by omega
    simp only [if_neg e0]
  · have e : j = cur.length := by omega
    subst e
    rw [List.getElem?_append_right (by simp)]
    simp

theorem TextLog_Print_live (t : TextLog) (s : List Char) (h : t.live = true) :
    TextLog_Print (some t) s = some (t.append s) := by
  simp [TextLog_Print, TextLog.append, h]

theorem log_data_body_spec (p : List uint8_t) (idx : Nat) (b : uint8_t)
    (hb : p[idx]? = some b) (t0 : TextLog) (num : uint32_t) (s : DataState)
    (cur : List uint8_t) (out : List Char) (hlive : t0.live = true)
    (hR : Rep t0 num s cur out) :
    ∃ s1, log_data_body p idx s = some s1 ∧
      Rep t0 num s1 (accStep (cur, out) b).1 (accStep (cur, out) b).2 := by
  obtain ⟨hodx, hlt, hhex, htxt, hg⟩ := hR
  have hlt2 : cur.length < 20 := hlt
  have hsp := sprintf_hex_eq s.hex (3 * cur.length) b (by simp only [HEX_SIZE, LOG_CHARS]; omega)
  have hst : store TXT_SIZE s.txt cur.length (if isprint b.val then Char.ofNat b.val else '.')
      = some (fun j => if j = cur.length then txtChar b else s.txt j) := by
    have : cur.length < TXT_SIZE := by simp only [TXT_SIZE, LOG_CHARS]; omega
    simp [store, this, txtChar]
  have hH := hexColumn_snoc_get cur b s.hex hhex
  have hT := txt_snoc_get cur b s.txt htxt
  by_cases hfull : cur.length + 1 = 20
  · -- the line is complete and printed
    have hacc : accStep (cur, out) b = ([], out ++ (dataLine (cur ++ [b]) ++ ['\n'])) := by
      simp [accStep, LOG_CHARS, hfull]
    have hlen : cur.length = 19 := by omega
    have hcH : cstr HEX_SIZE (fun j => if j = 3 * (cur.length + 1) then Char.ofNat 0 else
        (if j = 3 * cur.length + 3 then Char.ofNat 0
         else if j = 3 * cur.length + 2 then ' '
         else if j = 3 * cur.length + 1 then hexDigit (b.val % 16)
         else if j = 3 * cur.length then hexDigit (b.val / 16)
         else s.hex j)) = some (hexColumn (cur ++ [b])) := by
      apply cstr_eq
      · simp only [hexColumn_length, List.length_append, List.length_singleton, HEX_SIZE,
          LOG_CHARS]; omega
      · intro j hj
        simp only [hexColumn_length, List.length_append, List.length_singleton] at hj
        rw [hH j hj]
        have : j ≠ 3 * (cur.length + 1) := by omega
        simp only [if_neg this]
      · simp [hexColumn_length]
      · intro x hx; exact (hexColumn_chars _ x hx).1
    have hcT : cstr TXT_SIZE (fun j => if j = cur.length + 1 then Char.ofNat 0 else
        (if j = cur.length then txtChar b else s.txt j)) = some ((cur ++ [b]).map txtChar) := by
      apply cstr_eq
      · simp only [List.length_map, List.length_append, List.length_singleton, TXT_SIZE,
          LOG_CHARS]; omega
      · intro j hj
        simp only [List.length_map, List.length_append, List.length_singleton] at hj
        rw [hT j hj]
        have : j ≠ cur.length + 1 := by omega
        simp only [if_neg this]
      · simp
      · intro x hx
        simp only [List.mem_map] at hx
        obtain ⟨y, _, rfl⟩ := hx
        exact (txtChar_chars y).1
    have hs1 : store HEX_SIZE (fun j =>
         if j = 3 * cur.length + 3 then Char.ofNat 0
         else if j = 3 * cur.length + 2 then ' '
         else if j = 3 * cur.length + 1 then hexDigit (b.val % 16)
         else if j = 3 * cur.length then hexDigit (b.val / 16)
         else s.hex j) (3 * (cur.length + 1)) (Char.ofNat 0) = some
        (fun j => if j = 3 * (cur.length + 1) then Char.ofNat 0 else
        (if j = 3 * cur.length + 3 then Char.ofNat 0
         else if j = 3 * cur.length + 2 then ' '
         else if j = 3 * cur.length + 1 then hexDigit (b.val % 16)
         else if j = 3 * cur.length then hexDigit (b.val / 16)
         else s.hex j)) := by
      have : 3 * (cur.length + 1) < HEX_SIZE := by simp only [HEX_SIZE, LOG_CHARS]; omega
      simp only [store, if_pos this]
    have hs2 : store TXT_SIZE (fun j => if j = cur.length then txtChar b else s.txt j)
        (cur.length + 1) (Char.ofNat 0) = some
        (fun j => if j = cur.length + 1 then Char.ofNat 0 else
        (if j = cur.length then txtChar b else s.txt j)) := by
      have : cur.length + 1 < TXT_SIZE := by simp only [TXT_SIZE, LOG_CHARS]; omega
      simp only [store, if_pos this]
    have hfull2 : cur.length + 1 = LOG_CHARS := hfull
    refine ⟨_, by
      simp only [log_data_body, hb, hodx, hsp, hst, Option.bind_eq_bind, Option.some_bind,
        if_pos hfull2, hs1, hs2, hcH, hcT, hg,
        TextLog_Print_live (t0.withText out) _ (by simpa [TextLog.withText] using hlive)]
      exact rfl, ?_⟩
    · rw [hacc]
      refine ⟨rfl, by simp [LOG_CHARS], ?_, ?_, ?_⟩
      · intro j hj; simp at hj
      · intro j hj; simp at hj
      · simp [TextLog.append, TextLog.withText, dataLine, LOG_CHARS, hfull, padding]
  · -- the line goes on
    have hacc : accStep (cur, out) b = (cur ++ [b], out) := by
      simp [accStep, LOG_CHARS, hfull]
    have hfull2 : ¬ cur.length + 1 = LOG_CHARS := hfull
    refine ⟨_, by
      simp only [log_data_body, hb, hodx, hsp, hst, Option.bind_eq_bind, Option.some_bind,
        if_neg hfull2]
      exact rfl, ?_⟩
    · rw [hacc]
      refine ⟨by simp, by simp only [LOG_CHARS, List.length_append, List.length_singleton]; omega,
        ?_, ?_, hg⟩
      · intro j hj
        simp only [List.length_append, List.length_singleton] at hj
        exact hH j hj
      · intro j hj
        simp only [List.length_append, List.length_singleton] at hj
        exact hT j hj

theorem log_data_loop_spec (p : List uint8_t) (t0 : TextLog) (num : uint32_t)
    (hlive : t0.live = true) :
    ∀ (k idx : Nat) (s : DataState) (cur : List uint8_t) (out : List Char),
      idx + k ≤ p.length → Rep t0 num s cur out →
      ∃ s1, log_data_loop p k idx s = some s1 ∧
        Rep t0 num s1 (List.foldl accStep (cur, out) ((p.drop idx).take k)).1
          (List.foldl accStep (cur, out) ((p.drop idx).take k)).2 := by
  intro k
  induction k with
  | zero =>
    intro idx s cur out _ hR
    exact ⟨s, rfl, by simpa using hR⟩
  | succ k ih =>
    intro idx s cur out hle hR
    have hidx : idx < p.length := by omega
    have hb : p[idx]? = some p[idx] := List.getElem?_eq_getElem hidx
    obtain ⟨s1, h1, hR1⟩ := log_data_body_spec p idx p[idx] hb t0 num s cur out hlive hR
    obtain ⟨s2, h2, hR2⟩ := ih (idx + 1) s1 _ _ (by omega) hR1
    refine ⟨s2, ?_, ?_⟩
    · simp only [log_data_loop, h1, Option.some_bind, h2]
    · have hd : (p.drop idx).take (k + 1) = p[idx] :: (p.drop (idx + 1)).take k := by
        rw [List.drop_eq_getElem_cons hidx, List.take_succ_cons]
      rw [hd, List.foldl_cons]
      exact hR2

theorem log_data_pad_eq : ∀ (fuel odx : Nat) (t : TextLog), t.live = true →
    LOG_CHARS - odx < fuel →
    log_data_pad fuel odx (some t) = some (t.append (padding (LOG_CHARS - odx))) := by
  intro fuel
  induction fuel with
  | zero => intro odx t _ h; simp at h
  | succ fuel ih =>
    intro odx t hlive hf
    by_cases hlt : odx < LOG_CHARS
    · have hrec := ih (odx + 1) (t.append [' ', ' ', ' ']) (by simpa [TextLog.append] using hlive)
        (by omega)
      have hk : LOG_CHARS - odx = (LOG_CHARS - (odx + 1)) + 1 := by omega
      simp only [log_data_pad, if_pos hlt, TextLog_Print_live t _ hlive, Option.some_bind, hrec]
      rw [hk]
      simp [TextLog.append, padding, List.replicate_succ]
    · have hk : LOG_CHARS - odx = 0 := by omega
      simp only [log_data_pad, if_neg hlt, hk]
      simp [TextLog.append, padding]

/-! ## The accumulation produces the data lines -/

theorem dataLines_nil : dataLines [] = [] := by
  simp [dataLines]

theorem dataLines_short (c : List uint8_t) (h0 : c ≠ []) (h : c.length ≤ 20) :
    dataLines c = [dataLine c] := by
  have hpos : 0 < c.length := List.length_pos.mpr h0
  have hk : (c.length + 19) / 20 = 1 := by omega
  have ht : List.take 20 c = c := List.take_of_length_le h
  simp [dataLines, hk, chunk, LOG_CHARS, ht, List.range_succ]

theorem dataLines_append (c l : List uint8_t) (h : c.length = 20) :
    dataLines (c ++ l) = dataLine c :: dataLines l := by
  have hk : ((c ++ l).length + 19) / 20 = (l.length + 19) / 20 + 1 := by
    simp only [List.length_append, h]; omega
  have h0 : chunk (c ++ l) 0 = c := by
    simp [chunk, LOG_CHARS, List.take_append_eq_append_take, h]
  have hs : ∀ i, chunk (c ++ l) (i + 1) = chunk l i := by
    intro i
    have : LOG_CHARS * (i + 1) = c.length + LOG_CHARS * i := by
      simp only [LOG_CHARS, h]; omega
    simp only [chunk, this]
    rw [← List.drop_drop, List.drop_left]
  simp only [dataLines, hk, List.range_succ_eq_map, List.map_cons, List.map_map, h0]
  congr 1
  apply List.map_congr_left
  intro i _
  simp [hs]

theorem foldl_accStep (bs : List uint8_t) : ∀ (cur : List uint8_t) (out : List Char),
    cur.length < 20 →
    (List.foldl accStep (cur, out) bs).1.length < 20 ∧
    (List.foldl accStep (cur, out) bs).2 ++
        (if (List.foldl accStep (cur, out) bs).1 = [] then []
         else dataLine (List.foldl accStep (cur, out) bs).1 ++ ['\n'])
      = out ++ unlines (dataLines (cur ++ bs)) := by
  induction bs with
  | nil =>
    intro cur out h
    refine ⟨by simpa using h, ?_⟩
    by_cases h0 : cur = []
    · subst h0; simp [dataLines_nil, unlines]
    · simp [h0, dataLines_short cur h0 (by omega), unlines]
  | cons b bs ih =>
    intro cur out h
    by_cases hfull : cur.length + 1 = 20
    · have hacc : accStep (cur, out) b = ([], out ++ (dataLine (cur ++ [b]) ++ ['\n'])) := by
        simp [accStep, LOG_CHARS, hfull]
      obtain ⟨h1, h2⟩ := ih [] (out ++ (dataLine (cur ++ [b]) ++ ['\n'])) (by simp)
      rw [List.foldl_cons, hacc]
      refine ⟨h1, ?_⟩
      rw [h2]
      have : cur ++ b :: bs = (cur ++ [b]) ++ bs := by simp
      rw [this, dataLines_append (cur ++ [b]) bs (by simpa using hfull)]
      simp [unlines]
    · have hacc : accStep (cur, out) b = (cur ++ [b], out) := by
        simp [accStep, LOG_CHARS, hfull]
      have hlen : (cur ++ [b]).length < 20 := by
        simp only [List.length_append, List.length_singleton]; omega
      obtain ⟨h1, h2⟩ := ih (cur ++ [b]) out hlen
      rw [List.foldl_cons, hacc]
      refine ⟨h1, ?_⟩
      rw [h2]
      simp

/-! ## What `log_data` hands to the sink -/

theorem log_data_eq (fr : Frame) (p : List uint8_t) (n : Nat) (g : Globals) (t : TextLog)
    (hg : g.hext_log = some t) (hlive : t.live = true) (hn : n ≤ p.length) :
    log_data fr p n g = some
      { hext_log := some (t.append (dumpText (p.take n))), s_pkt_num := g.s_pkt_num } := by
  have hR0 : Rep t g.s_pkt_num
      { hex := fr.hex, txt := fr.txt, odx := 0,
        g := { g with hext_log := some (t.append ['\n']) } } [] (t.text ++ ['\n']) :=
    ⟨rfl, by simp [LOG_CHARS], by intro j hj; simp at hj, by intro j hj; simp at hj, rfl⟩
  obtain ⟨s1, h1, hR1⟩ := log_data_loop_spec p t g.s_pkt_num hlive n 0 _ _ _ (by omega) hR0
  obtain ⟨hlen, hout⟩ := foldl_accStep (p.take n) [] (t.text ++ ['\n']) (by simp)
  simp only [List.drop_zero, List.nil_append] at hR1 hout
  generalize List.foldl accStep ([], t.text ++ ['\n']) (List.take n p) = r at hR1 hout hlen
  obtain ⟨cur, out⟩ := r
  simp only at hR1 hout hlen
  obtain ⟨hodx, _, hhex, htxt, hg1⟩ := hR1
  have hnl : TextLog_NewLine g.hext_log = some (t.append ['\n']) := by
    rw [hg]; exact TextLog_Print_live t _ hlive
  by_cases h0 : cur = []
  · subst h0
    have hz : s1.odx = 0 := by simpa using hodx
    simp only [if_true, List.append_nil] at hout
    simp only [log_data, hnl, Option.bind_eq_bind, Option.some_bind, h1, hz, ne_eq,
      not_true_eq_false, if_false, hg1]
    simp [TextLog.withText, TextLog.append, dumpText, hout]
  · have hpos : 0 < cur.length := List.length_pos.mpr h0
    have hnz : ¬ cur.length = 0 := by omega
    simp only [if_neg h0] at hout
    have hs1 : store HEX_SIZE s1.hex (3 * cur.length) (Char.ofNat 0) = some
        (fun j => if j = 3 * cur.length then Char.ofNat 0 else s1.hex j) := by
      have : 3 * cur.length < HEX_SIZE := by simp only [HEX_SIZE, LOG_CHARS]; omega
      simp only [store, if_pos this]
    have hs2 : store TXT_SIZE s1.txt cur.length (Char.ofNat 0) = some
        (fun j => if j = cur.length then Char.ofNat 0 else s1.txt j) := by
      have : cur.length < TXT_SIZE := by simp only [TXT_SIZE, LOG_CHARS]; omega
      simp only [store, if_pos this]
    have hcH : cstr HEX_SIZE (fun j => if j = 3 * cur.length then Char.ofNat 0 else s1.hex j)
        = some (hexColumn cur) := by
      apply cstr_eq
      · simp only [hexColumn_length, HEX_SIZE, LOG_CHARS]; omega
      · intro j hj
        simp only [hexColumn_length] at hj
        rw [hhex j hj]
        have : j ≠ 3 * cur.length := by omega
        simp only [if_neg this]
      · simp [hexColumn_length]
      · intro x hx; exact (hexColumn_chars _ x hx).1
    have hcT : cstr TXT_SIZE (fun j => if j = cur.length then Char.ofNat 0 else s1.txt j)
        = some (cur.map txtChar) := by
      apply cstr_eq
      · simp only [List.length_map, TXT_SIZE, LOG_CHARS]; omega
      · intro j hj
        simp only [List.length_map] at hj
        rw [htxt j hj]
        have : j ≠ cur.length := by omega
        simp only [if_neg this]
      · simp
      · intro x hx
        simp only [List.mem_map] at hx
        obtain ⟨y, _, rfl⟩ := hx
        exact (txtChar_chars y).1
    have hl1 : (t.withText out).live = true := by simpa [TextLog.withText] using hlive
    have hl2 : ((t.withText out).append (['x'] ++ hexColumn cur)).live = true := by
      simpa [TextLog.withText, TextLog.append] using hlive
    have hpad := log_data_pad_eq (LOG_CHARS + 1) cur.length
      ((t.withText out).append (['x'] ++ hexColumn cur)) hl2 (by omega)
    have hl3 : (((t.withText out).append (['x'] ++ hexColumn cur)).append
        (padding (LOG_CHARS - cur.length))).live = true := by
      simpa [TextLog.withText, TextLog.append] using hlive
    simp only [log_data, hnl, Option.bind_eq_bind, Option.some_bind, h1, ne_eq, hnz,
      not_false_eq_true, if_true, hodx, hs1, hs2, hcH, hcT, hg1,
      TextLog_Print_live _ _ hl1, hpad, TextLog_Print_live _ _ hl3]
    simp only [TextLog.withText, TextLog.append, dumpText, List.append_assoc,
      List.cons_append, List.nil_append] at hout ⊢
    rw [← hout]
    simp [dataLine]

/-! ## The shape of the data lines -/

theorem chunk_length_le (l : List uint8_t) (i : Nat) : (chunk l i).length ≤ 20 := by
  simp only [chunk, LOG_CHARS, List.length_take, List.length_drop]
  omega

theorem chunk_length_full (l : List uint8_t) (i : Nat) (h : 20 * i + 20 ≤ l.length) :
    (chunk l i).length = 20 := by
  simp only [chunk, LOG_CHARS, List.length_take, List.length_drop]
  omega

theorem chunk_take (p : List uint8_t) (n i : Nat) (h : 20 * i + 20 ≤ n) :
    chunk (p.take n) i = (p.drop (20 * i)).take 20 := by
  simp only [chunk, LOG_CHARS]
  rw [List.drop_take, List.take_take]
  congr 1
  omega

theorem dataLines_length (l : List uint8_t) : (dataLines l).length = (l.length + 19) / 20 := by
  simp [dataLines]

theorem dataLines_getElem? (l : List uint8_t) (i : Nat) (h : i < (l.length + 19) / 20) :
    (dataLines l)[i]? = some (dataLine (chunk l i)) := by
  simp [dataLines, List.getElem?_map, List.getElem?_range h]

theorem mem_dataLines (l : List uint8_t) (ln : List Char) (h : ln ∈ dataLines l) :
    ∃ i, i < (l.length + 19) / 20 ∧ ln = dataLine (chunk l i) := by
  simp only [dataLines, List.mem_map, List.mem_range] at h
  obtain ⟨i, hi, rfl⟩ := h
  exact ⟨i, hi, rfl⟩

theorem dataLine_no_newline (c : List uint8_t) : '\n' ∉ dataLine c := by
  intro h
  simp only [dataLine, List.mem_append, List.mem_cons, List.mem_singleton, List.mem_map,
    List.not_mem_nil, or_false] at h
  rcases h with (((h | h) | h) | h) | h
  · exact absurd h (by decide)
  · exact (hexColumn_chars c _ h).2.1 rfl
  · exact absurd (padding_chars _ _ h) (by decide)
  · rcases h with h | h | h <;> exact absurd h (by decide)
  · obtain ⟨b, _, hb⟩ := h
    exact (txtChar_chars b).2 hb

theorem hexPart_length (c : List uint8_t) (h : c.length ≤ 20) :
    (hexColumn c ++ padding (LOG_CHARS - c.length)).length = 60 := by
  simp only [List.length_append, hexColumn_length, padding_length, LOG_CHARS]
  omega

theorem hexPart_no_hash (c : List uint8_t) (k : Nat) : '#' ∉ hexColumn c ++ padding k := by
  intro h
  rcases List.mem_append.mp h with h | h
  · exact (hexColumn_chars c _ h).2.2 rfl
  · exact absurd (padding_chars _ _ h) (by decide)

theorem length_take_of_le (p : List uint8_t) (n : Nat) (h : n ≤ p.length) :
    (p.take n).length = n := by
  simp [List.length_take, h]

/-! ## Properties of `log_data` -/

/-- C1: for a buffer holding at least `n` bytes, `log_data` appends one line
break followed by exactly `ceil(n/20)` data lines, each closed by a line break
and free of line breaks inside; every data line starts with `x`, and the hex
column between that `x` and the separator `" # "` is 60 characters wide and
holds no `#`, on the last partial line as on the full ones. The counter is
untouched. -/
theorem log_data_line_count (fr : Frame) (p : List uint8_t) (n : Nat) (g : Globals)
    (t : TextLog) (hg : g.hext_log = some t) (hlive : t.live = true) (hn : n ≤ p.length) :
    ∃ lines : List (List Char),
      log_data fr p n g = some
        { hext_log := some (t.append ('\n' :: unlines lines)), s_pkt_num := g.s_pkt_num } ∧
      lines.length = (n + 19) / 20 ∧
      ∀ l ∈ lines, '\n' ∉ l ∧
        ∃ hexc asc : List Char, l = ['x'] ++ hexc ++ [' ', '#', ' '] ++ asc ∧
          hexc.length = 60 ∧ '#' ∉ hexc := by
  refine ⟨dataLines (p.take n), log_data_eq fr p n g t hg hlive hn, ?_, ?_⟩
  · rw [dataLines_length, length_take_of_le p n hn]
  · intro l hl
    obtain ⟨i, _, rfl⟩ := mem_dataLines _ _ hl
    refine ⟨dataLine_no_newline _, hexColumn (chunk (p.take n) i) ++
      padding (LOG_CHARS - (chunk (p.take n) i).length), (chunk (p.take n) i).map txtChar, ?_,
      hexPart_length _ (chunk_length_le _ _), hexPart_no_hash _ _⟩
    simp [dataLine]

/-- Witness of C1 on a buffer of 23 bytes. -/
theorem log_data_line_count_witness :
    (open0.hext_log = some sink0 ∧ sink0.live = true ∧ 23 ≤ bytes23.length) ∧
    ∃ lines : List (List Char),
      log_data frame0 bytes23 23 open0 = some
        { hext_log := some (sink0.append ('\n' :: unlines lines)),
          s_pkt_num := open0.s_pkt_num } ∧
      lines.length = (23 + 19) / 20 ∧
      ∀ l ∈ lines, '\n' ∉ l ∧
        ∃ hexc asc : List Char, l = ['x'] ++ hexc ++ [' ', '#', ' '] ++ asc ∧
          hexc.length = 60 ∧ '#' ∉ hexc :=
  ⟨⟨rfl, rfl, by decide⟩,
    log_data_line_count frame0 bytes23 23 open0 sink0 rfl rfl (by decide)⟩

/-- C2: for every index `i` with `20*i + 20 <= n`, the `(i+1)`-th data line is
`x`, then for each of the bytes `20*i .. 20*i+19` in order two uppercase
hexadecimal digits (high nibble, low nibble) and a space, then `" # "`, then
the 20 ASCII-column characters of those bytes; it is followed by a line
break. -/
theorem log_data_full_line (fr : Frame) (p : List uint8_t) (n : Nat) (g : Globals)
    (t : TextLog) (hg : g.hext_log = some t) (hlive : t.live = true) (hn : n ≤ p.length)
    (i : Nat) (hi : 20 * i + 20 ≤ n) :
    ∃ lines : List (List Char),
      log_data fr p n g = some
        { hext_log := some (t.append ('\n' :: unlines lines)), s_pkt_num := g.s_pkt_num } ∧
      (∀ l ∈ lines, '\n' ∉ l) ∧
      lines[i]? = some (['x'] ++ ((p.drop (20 * i)).take 20).flatMap hexGroup
        ++ [' ', '#', ' '] ++ ((p.drop (20 * i)).take 20).map txtChar) ∧
      ((p.drop (20 * i)).take 20).length = 20 ∧
      (∀ b : uint8_t, hexGroup b = [hexDigit (b.val / 16), hexDigit (b.val % 16), ' ']) ∧
      (∀ d : Fin 16, ['0', '1', '2', '3', '4', '5', '6', '7', '8', '9', 'A', 'B', 'C', 'D',
        'E', 'F'][d.val]? = some (hexDigit d.val)) := by
  have hlen := length_take_of_le p n hn
  refine ⟨dataLines (p.take n), log_data_eq fr p n g t hg hlive hn,
    fun l hl => ?_, ?_, ?_, fun _ => rfl, by decide⟩
  · obtain ⟨j, _, rfl⟩ := mem_dataLines _ _ hl
    exact dataLine_no_newline _
  · rw [dataLines_getElem? _ _ (by rw [hlen]; omega), ← chunk_take p n i hi]
    have hfull := chunk_length_full (p.take n) i (by rw [hlen]; exact hi)
    simp [dataLine, hexColumn, LOG_CHARS, hfull, padding]
  · simp only [List.length_take, List.length_drop]
    omega

/-- Witness of C2: the first line of the dump of 23 bytes. -/
theorem log_data_full_line_witness :
    (open0.hext_log = some sink0 ∧ sink0.live = true ∧ 23 ≤ bytes23.length ∧
      20 * 0 + 20 ≤ 23) ∧
    ∃ lines : List (List Char),
      log_data frame0 bytes23 23 open0 = some
        { hext_log := some (sink0.append ('\n' :: unlines lines)),
          s_pkt_num := open0.s_pkt_num } ∧
      (∀ l ∈ lines, '\n' ∉ l) ∧
      lines[0]? = some (['x'] ++ ((bytes23.drop (20 * 0)).take 20).flatMap hexGroup
        ++ [' ', '#', ' '] ++ ((bytes23.drop (20 * 0)).take 20).map txtChar) ∧
      ((bytes23.drop (20 * 0)).take 20).length = 20 ∧
      (∀ b : uint8_t, hexGroup b = [hexDigit (b.val / 16), hexDigit (b.val % 16), ' ']) ∧
      (∀ d : Fin 16, ['0', '1', '2', '3', '4', '5', '6', '7', '8', '9', 'A', 'B', 'C', 'D',
        'E', 'F'][d.val]? = some (hexDigit d.val)) :=
  ⟨⟨rfl, rfl, by decide, by decide⟩,
    log_data_full_line frame0 bytes23 23 open0 sink0 rfl rfl (by decide) 0 (by decide)⟩

theorem dataLine_indexOf_hash (c : List uint8_t) (h : c.length ≤ 20) :
    List.indexOf '#' (dataLine c) = 62 := by
  have e : dataLine c = (['x'] ++ (hexColumn c ++ padding (LOG_CHARS - c.length)))
      ++ ([' ', '#', ' '] ++ c.map txtChar) := by
    simp [dataLine]
  have hnot : '#' ∉ ['x'] ++ (hexColumn c ++ padding (LOG_CHARS - c.length)) := by
    intro hm
    rcases List.mem_append.mp hm with hm | hm
    · exact absurd (List.mem_singleton.mp hm) (by decide)
    · exact hexPart_no_hash _ _ hm
  rw [e, List.indexOf_append_of_not_mem hnot, List.length_append, hexPart_length c h]
  have h1 : List.indexOf '#' ([' ', '#', ' '] ++ c.map txtChar) = 1 := by
    simp only [List.cons_append, List.nil_append]
    rw [List.indexOf_cons_ne _ (by decide), List.indexOf_cons_self]
  rw [h1]
  rfl

/-- C3: when `n` is not a multiple of 20, with `k = n mod 20`, the last data
line is `x`, then the `k` trailing bytes each as two uppercase hex digits and a
space, then exactly `20 - k` groups of three spaces, then `" # "`, then the `k`
ASCII-column characters of those bytes; it is followed by a line break, and the
first `#` of every data line, this one included, is at the same index 62. -/
theorem log_data_last_line (fr : Frame) (p : List uint8_t) (n : Nat) (g : Globals)
    (t : TextLog) (hg : g.hext_log = some t) (hlive : t.live = true) (hn : n ≤ p.length)
    (hk : n % 20 ≠ 0) :
    ∃ lines : List (List Char),
      log_data fr p n g = some
        { hext_log := some (t.append ('\n' :: unlines lines)), s_pkt_num := g.s_pkt_num } ∧
      (∀ l ∈ lines, '\n' ∉ l) ∧
      lines.getLast? = some (['x'] ++ ((p.take n).drop (n - n % 20)).flatMap hexGroup
        ++ (List.replicate (20 - n % 20) [' ', ' ', ' ']).flatten
        ++ [' ', '#', ' '] ++ ((p.take n).drop (n - n % 20)).map txtChar) ∧
      ((p.take n).drop (n - n % 20)).length = n % 20 ∧
      (∀ l ∈ lines, List.indexOf '#' l = 62) := by
  have hlen := length_take_of_le p n hn
  have htail : ((p.take n).drop (n - n % 20)).length = n % 20 := by
    rw [List.length_drop, hlen]
    have := Nat.mod_le n 20
    omega
  refine ⟨dataLines (p.take n), log_data_eq fr p n g t hg hlive hn,
    fun l hl => ?_, ?_, htail, fun l hl => ?_⟩
  · obtain ⟨j, _, rfl⟩ := mem_dataLines _ _ hl
    exact dataLine_no_newline _
  · have hcnt : (n + 19) / 20 - 1 = n / 20 := by omega
    have hch : chunk (p.take n) (n / 20) = (p.take n).drop (n - n % 20) := by
      have e : LOG_CHARS * (n / 20) = n - n % 20 := by
        simp only [LOG_CHARS]
        have := Nat.div_add_mod n 20
        omega
      simp only [chunk, e]
      apply List.take_of_length_le
      rw [htail, LOG_CHARS]
      omega
    rw [List.getLast?_eq_getElem?, dataLines_length, hlen, hcnt,
      dataLines_getElem? _ _ (by rw [hlen]; omega), hch]
    simp only [dataLine, hexColumn, padding, htail, LOG_CHARS]
  · obtain ⟨j, _, rfl⟩ := mem_dataLines _ _ hl
    exact dataLine_indexOf_hash _ (chunk_length_le _ _)

/-- Witness of C3: the last line of the dump of 23 bytes. -/
theorem log_data_last_line_witness :
    (open0.hext_log = some sink0 ∧ sink0.live = true ∧ 23 ≤ bytes23.length ∧ 23 % 20 ≠ 0) ∧
    ∃ lines : List (List Char),
      log_data frame0 bytes23 23 open0 = some
        { hext_log := some (sink0.append ('\n' :: unlines lines)),
          s_pkt_num := open0.s_pkt_num } ∧
      (∀ l ∈ lines, '\n' ∉ l) ∧
      lines.getLast? = some (['x'] ++ ((bytes23.take 23).drop (23 - 23 % 20)).flatMap hexGroup
        ++ (List.replicate (20 - 23 % 20) [' ', ' ', ' ']).flatten
        ++ [' ', '#', ' '] ++ ((bytes23.take 23).drop (23 - 23 % 20)).map txtChar) ∧
      ((bytes23.take 23).drop (23 - 23 % 20)).length = 23 % 20 ∧
      (∀ l ∈ lines, List.indexOf '#' l = 62) :=
  ⟨⟨rfl, rfl, by decide, by decide⟩,
    log_data_last_line frame0 bytes23 23 open0 sink0 rfl rfl (by decide) (by decide)⟩

/-- C4: for every byte `b` of the buffer dumped by `log_data`, at index `idx`,
the character at its place in the ASCII column (position `idx mod 20` after the
separator of line `idx / 20`) is `b` itself if `32 <= b <= 126` and `.`
otherwise. -/
theorem log_data_ascii_char (fr : Frame) (p : List uint8_t) (n : Nat) (g : Globals)
    (t : TextLog) (hg : g.hext_log = some t) (hlive : t.live = true) (hn : n ≤ p.length)
    (idx : Nat) (hidx : idx < n) (b : uint8_t) (hb : p[idx]? = some b) :
    ∃ (lines : List (List Char)) (hexc asc : List Char),
      log_data fr p n g = some
        { hext_log := some (t.append ('\n' :: unlines lines)), s_pkt_num := g.s_pkt_num } ∧
      (∀ l ∈ lines, '\n' ∉ l) ∧
      lines[idx / 20]? = some (['x'] ++ hexc ++ [' ', '#', ' '] ++ asc) ∧
      hexc.length = 60 ∧ '#' ∉ hexc ∧
      asc[idx % 20]? = some (if 32 ≤ b.val ∧ b.val ≤ 126 then Char.ofNat b.val else '.') := by
  have hlen := length_take_of_le p n hn
  refine ⟨dataLines (p.take n),
    hexColumn (chunk (p.take n) (idx / 20)) ++
      padding (LOG_CHARS - (chunk (p.take n) (idx / 20)).length),
    (chunk (p.take n) (idx / 20)).map txtChar,
    log_data_eq fr p n g t hg hlive hn, fun l hl => ?_, ?_,
    hexPart_length _ (chunk_length_le _ _), hexPart_no_hash _ _, ?_⟩
  · obtain ⟨j, _, rfl⟩ := mem_dataLines _ _ hl
    exact dataLine_no_newline _
  · rw [dataLines_getElem? _ _ (by rw [hlen]; omega)]
    simp [dataLine]
  · have hmod : idx % 20 < 20 := Nat.mod_lt _ (by decide)
    have hsum : 20 * (idx / 20) + idx % 20 = idx := Nat.div_add_mod idx 20
    have hget : (chunk (p.take n) (idx / 20))[idx % 20]? = some b := by
      simp only [chunk, LOG_CHARS, List.getElem?_take, if_pos hmod, List.getElem?_drop, hsum,
        if_pos hidx, hb]
    rw [List.getElem?_map, hget]
    simp [txtChar, isprint]

/-- Witness of C4: the byte `0x7F` at index 17 of the 23 byte buffer. -/
theorem log_data_ascii_char_witness :
    (open0.hext_log = some sink0 ∧ sink0.live = true ∧ 23 ≤ bytes23.length ∧ 17 < 23 ∧
      bytes23[17]? = some 0x7F) ∧
    ∃ (lines : List (List Char)) (hexc asc : List Char),
      log_data frame0 bytes23 23 open0 = some
        { hext_log := some (sink0.append ('\n' :: unlines lines)),
          s_pkt_num := open0.s_pkt_num } ∧
      (∀ l ∈ lines, '\n' ∉ l) ∧
      lines[17 / 20]? = some (['x'] ++ hexc ++ [' ', '#', ' '] ++ asc) ∧
      hexc.length = 60 ∧ '#' ∉ hexc ∧
      asc[17 % 20]? = some (if 32 ≤ (0x7F : uint8_t).val ∧ (0x7F : uint8_t).val ≤ 126
        then Char.ofNat (0x7F : uint8_t).val else '.') :=
  ⟨⟨rfl, rfl, by decide, by decide, by decide⟩,
    log_data_ascii_char frame0 bytes23 23 open0 sink0 rfl rfl (by decide) 17 (by decide)
      0x7F (by decide)⟩

/-! ## The records written by `HextLogger::log` -/

theorem TextLog.append_append (t : TextLog) (a b : List Char) :
    (t.append a).append b = t.append (a ++ b) := by
  simp [TextLog.append]

theorem TextLog.append_live (t : TextLog) (a : List Char) (h : t.live = true) :
    (t.append a).live = true := by
  simpa [TextLog.append] using h

theorem log_raw_eq (p : Packet) (g : Globals) (t : TextLog) (hg : g.hext_log = some t)
    (hlive : t.live = true) :
    log_raw p g = some
      { hext_log := some (t.append (rawHeader g.s_pkt_num.val p.caplen.val)),
        s_pkt_num := wrap32 (g.s_pkt_num.val + 1) } := by
  simp only [log_raw, hg, TextLog_Print_live t _ hlive, Option.bind_eq_bind, Option.some_bind,
    rawHeader]

theorem log_header_eq (p : Packet) (g : Globals) (t : TextLog) (hg : g.hext_log = some t)
    (hlive : t.live = true) :
    log_header p g = some
      { hext_log := some (t.append
          (sessionHeader (sfip_ntop p.src) p.sp.val (sfip_ntop p.dst) p.dp.val)),
        s_pkt_num := g.s_pkt_num } := by
  simp only [log_header, hg, TextLog_Print_live t _ hlive, Option.bind_eq_bind,
    Option.some_bind, sessionHeader]

theorem log_raw_mode_eq (self : HextLogger) (fr : Frame) (p : Packet) (g : Globals)
    (t : TextLog) (hraw : self.raw = true) (hg : g.hext_log = some t) (hlive : t.live = true)
    (hwf : p.caplen.val ≤ p.pkt.length) :
    self.log fr p g = some
      { hext_log := some (t.append (rawRecord g.s_pkt_num.val p)),
        s_pkt_num := wrap32 (g.s_pkt_num.val + 1) } := by
  simp only [HextLogger.log, hraw, if_true, log_raw_eq p g t hg hlive, Option.some_bind]
  rw [log_data_eq fr p.pkt p.caplen.val _ _ rfl (TextLog.append_live t _ hlive) hwf,
    TextLog.append_append]
  rfl

theorem log_payload_mode_eq (self : HextLogger) (fr : Frame) (p : Packet) (g : Globals)
    (t : TextLog) (hraw : self.raw = false) (htcp : p.has_tcp_data = true)
    (hg : g.hext_log = some t) (hlive : t.live = true) (hwf : p.dsize.val ≤ p.data.length) :
    self.log fr p g = some
      { hext_log := some (t.append
          (sessionHeader (sfip_ntop p.src) p.sp.val (sfip_ntop p.dst) p.dp.val
            ++ dumpText (p.data.take p.dsize.val))),
        s_pkt_num := g.s_pkt_num } := by
  simp only [HextLogger.log, hraw, Bool.false_eq_true, if_false, htcp, if_true,
    log_header_eq p g t hg hlive, Option.some_bind]
  rw [log_data_eq fr p.data p.dsize.val _ _ rfl (TextLog.append_live t _ hlive) hwf,
    TextLog.append_append]

theorem wrap32_val (n : Nat) : (wrap32 n).val = n % 4294967296 := rfl

theorem rawRecordsWrap_congr (ps : List Packet) : ∀ (a b : Nat),
    a % 4294967296 = b % 4294967296 → rawRecordsWrap a ps = rawRecordsWrap b ps := by
  induction ps with
  | nil => intro a b _; rfl
  | cons p ps ih =>
    intro a b h
    simp only [rawRecordsWrap, h]
    rw [ih (a + 1) (b + 1) (by omega)]

theorem rawRecordsWrap_eq (ps : List Packet) : ∀ (seq : Nat),
    seq + ps.length ≤ 4294967296 → rawRecordsWrap seq ps = rawRecords seq ps := by
  induction ps with
  | nil => intro seq _; rfl
  | cons p ps ih =>
    intro seq h
    simp only [List.length_cons] at h
    have hlt : seq % 4294967296 = seq := Nat.mod_eq_of_lt (by omega)
    simp only [rawRecordsWrap, rawRecords, hlt]
    rw [ih (seq + 1) (by omega)]

theorem rawRecordsWrap_append (ps qs : List Packet) : ∀ (seq : Nat),
    rawRecordsWrap seq (ps ++ qs) = rawRecordsWrap seq ps ++ rawRecordsWrap (seq + ps.length) qs := by
  induction ps with
  | nil => intro seq; rfl
  | cons p ps ih =>
    intro seq
    have e : seq + 1 + ps.length = seq + (p :: ps).length := by
      simp only [List.length_cons]; omega
    rw [List.cons_append, rawRecordsWrap, rawRecordsWrap, ih (seq + 1), e, List.append_assoc]

theorem rawRecords_append (ps qs : List Packet) : ∀ (seq : Nat),
    rawRecords seq (ps ++ qs) = rawRecords seq ps ++ rawRecords (seq + ps.length) qs := by
  induction ps with
  | nil => intro seq; rfl
  | cons p ps ih =>
    intro seq
    have e : seq + 1 + ps.length = seq + (p :: ps).length := by
      simp only [List.length_cons]; omega
    rw [List.cons_append, rawRecords, rawRecords, ih (seq + 1), e, List.append_assoc]

theorem logAll_raw_wrap (self : HextLogger) (hraw : self.raw = true) :
    ∀ (cs : List (Frame × Packet)) (g : Globals) (t : TextLog),
      g.hext_log = some t → t.live = true →
      (∀ c ∈ cs, c.2.caplen.val ≤ c.2.pkt.length) →
      logAll self cs g = some
        { hext_log := some (t.append (rawRecordsWrap g.s_pkt_num.val (cs.map Prod.snd))),
          s_pkt_num := wrap32 (g.s_pkt_num.val + cs.length) } := by
  intro cs
  induction cs with
  | nil =>
    intro g t hg _ _
    have hnum : wrap32 (g.s_pkt_num.val + 0) = g.s_pkt_num := by
      apply Fin.ext
      rw [wrap32_val, Nat.add_zero]
      exact Nat.mod_eq_of_lt g.s_pkt_num.isLt
    have htxt : t.append [] = t := by simp [TextLog.append]
    simp only [logAll, List.map_nil, rawRecordsWrap, List.length_nil, hnum, htxt, ← hg]
  | cons c cs ih =>
    intro g t hg hlive hwf
    have hstep := log_raw_mode_eq self c.1 c.2 g t hraw hg hlive (hwf c (by simp))
    have hrest := ih ⟨some (t.append (rawRecord g.s_pkt_num.val c.2)),
        wrap32 (g.s_pkt_num.val + 1)⟩
      (t.append (rawRecord g.s_pkt_num.val c.2)) rfl
      (TextLog.append_live t _ hlive) (fun d hd => hwf d (by simp [hd]))
    simp only [logAll, hstep, Option.some_bind, hrest, TextLog.append_append, List.map_cons,
      rawRecordsWrap, List.length_cons]
    have hmod : g.s_pkt_num.val % 4294967296 = g.s_pkt_num.val :=
      Nat.mod_eq_of_lt g.s_pkt_num.isLt
    have hcongr := rawRecordsWrap_congr (cs.map Prod.snd) (wrap32 (g.s_pkt_num.val + 1)).val
      (g.s_pkt_num.val + 1) (by rw [wrap32_val]; exact Nat.mod_mod _ _)
    have hnum : wrap32 ((wrap32 (g.s_pkt_num.val + 1)).val + cs.length)
        = wrap32 (g.s_pkt_num.val + (cs.length + 1)) := by
      apply Fin.ext
      simp only [wrap32_val]
      omega
    rw [hcongr, hnum, hmod]

theorem logAll_raw_overflow (self : HextLogger) (hraw : self.raw = true)
    (cs : List (Frame × Packet)) (c : Frame × Packet) (g : Globals) (t : TextLog)
    (hg : g.hext_log = some t) (hlive : t.live = true) (h0 : g.s_pkt_num = 0)
    (hwf : ∀ d ∈ cs, d.2.caplen.val ≤ d.2.pkt.length) (hc : c.2.caplen.val ≤ c.2.pkt.length)
    (hlen : cs.length = 4294967296) :
    logAll self (cs ++ [c]) g = some
      { hext_log := some (t.append (rawRecords 0 (cs.map Prod.snd) ++ rawRecord 0 c.2)),
        s_pkt_num := 1 } := by
  have hall : ∀ d ∈ cs ++ [c], d.2.caplen.val ≤ d.2.pkt.length := by
    intro d hd
    rcases List.mem_append.mp hd with hd | hd
    · exact hwf d hd
    · rw [List.mem_singleton.mp hd]; exact hc
  have hz : g.s_pkt_num.val = 0 := by rw [h0]; rfl
  have hlen2 : (cs.map Prod.snd).length = 4294967296 := by rw [List.length_map, hlen]
  rw [logAll_raw_wrap self hraw (cs ++ [c]) g t hg hlive hall, hz, List.map_append,
    rawRecordsWrap_append, rawRecordsWrap_eq _ 0 (by rw [hlen2]), hlen2, List.length_append,
    hlen]
  have e1 : rawRecordsWrap (0 + 4294967296) (List.map Prod.snd [c]) = rawRecord 0 c.2 := by
    simp only [List.map_cons, List.map_nil, rawRecordsWrap, List.append_nil]
  have e2 : wrap32 (0 + (4294967296 + [c].length)) = 1 := by
    apply Fin.ext
    rw [wrap32_val]
    simp only [List.length_cons, List.length_nil]
    decide
  rw [e1, e2]

/-- C5 (amended): every run of at most `2^32` packets through `log` in raw
mode, started with the counter at 0, appends the raw records numbered
`0, 1, ..., N-1` in call order and leaves the counter at `N mod 2^32`; a call
in payload mode leaves the counter as it was, with or without TCP data. -/
theorem log_raw_sequence (self : HextLogger) (cs : List (Frame × Packet)) (g : Globals)
    (t : TextLog) (hraw : self.raw = true) (hg : g.hext_log = some t) (hlive : t.live = true)
    (h0 : g.s_pkt_num = 0) (hwf : ∀ c ∈ cs, c.2.caplen.val ≤ c.2.pkt.length)
    (hN : cs.length ≤ 4294967296) :
    logAll self cs g = some
      { hext_log := some (t.append (rawRecords 0 (cs.map Prod.snd))),
        s_pkt_num := wrap32 cs.length } ∧
    (wrap32 cs.length).val = cs.length % 4294967296 ∧
    ∀ (pl : HextLogger) (fr : Frame) (p : Packet) (g1 : Globals), pl.raw = false →
      (p.has_tcp_data = true →
        (∃ t1, g1.hext_log = some t1 ∧ t1.live = true) ∧ p.dsize.val ≤ p.data.length) →
      ∃ g2, pl.log fr p g1 = some g2 ∧ g2.s_pkt_num = g1.s_pkt_num := by
  have hz : g.s_pkt_num.val = 0 := by rw [h0]; rfl
  refine ⟨?_, rfl, ?_⟩
  · rw [logAll_raw_wrap self hraw cs g t hg hlive hwf, hz,
      rawRecordsWrap_eq _ 0 (by rw [List.length_map]; omega), Nat.zero_add]
  · intro pl fr p g1 hpl hp
    by_cases htcp : p.has_tcp_data = true
    · obtain ⟨⟨t1, hg1, hl1⟩, hd⟩ := hp htcp
      exact ⟨_, log_payload_mode_eq pl fr p g1 t1 hpl htcp hg1 hl1 hd, rfl⟩
    · exact ⟨g1, by simp [HextLogger.log, hpl, htcp], rfl⟩

/-- Witness of C5: a run of two packets in raw mode. -/
theorem log_raw_sequence_witness :
    (rawLogger.raw = true ∧ open0.hext_log = some sink0 ∧ sink0.live = true ∧
      open0.s_pkt_num = 0 ∧
      (∀ c ∈ [(frame0, pkt3), (frame0, pktTcp)], c.2.caplen.val ≤ c.2.pkt.length) ∧
      [(frame0, pkt3), (frame0, pktTcp)].length ≤ 4294967296) ∧
    (logAll rawLogger [(frame0, pkt3), (frame0, pktTcp)] open0 = some
      { hext_log := some (sink0.append
          (rawRecords 0 ([(frame0, pkt3), (frame0, pktTcp)].map Prod.snd))),
        s_pkt_num := wrap32 [(frame0, pkt3), (frame0, pktTcp)].length } ∧
    (wrap32 [(frame0, pkt3), (frame0, pktTcp)].length).val
      = [(frame0, pkt3), (frame0, pktTcp)].length % 4294967296 ∧
    ∀ (pl : HextLogger) (fr : Frame) (p : Packet) (g1 : Globals), pl.raw = false →
      (p.has_tcp_data = true →
        (∃ t1, g1.hext_log = some t1 ∧ t1.live = true) ∧ p.dsize.val ≤ p.data.length) →
      ∃ g2, pl.log fr p g1 = some g2 ∧ g2.s_pkt_num = g1.s_pkt_num) :=
  have hwf : ∀ c ∈ [(frame0, pkt3), (frame0, pktTcp)], c.2.caplen.val ≤ c.2.pkt.length := by
    intro c hc
    simp only [List.mem_cons, List.mem_singleton, List.not_mem_nil, or_false] at hc
    rcases hc with rfl | rfl <;> decide
  ⟨⟨rfl, rfl, rfl, rfl, hwf, by decide⟩,
    log_raw_sequence rawLogger [(frame0, pkt3), (frame0, pktTcp)] open0 sink0 rfl rfl rfl rfl
      hwf (by decide)⟩

/-- C5 as stated fails after `2^32` raw packets: in a run of `2^32 + 1`
packets of three bytes from a fresh counter the last header carries the
sequence number 0, not `2^32`, and the counter ends at 1. -/
theorem log_raw_sequence_counterexample :
    ∃ g1, logAll rawLogger
        (List.replicate 4294967296 (frame0, pkt3) ++ [(frame0, pkt3)]) open0 = some g1 ∧
      g1.hext_log = some (sink0.append
        (rawRecords 0 (List.replicate 4294967296 pkt3) ++ rawRecord 0 pkt3)) ∧
      g1.hext_log ≠ some (sink0.append
        (rawRecords 0 (List.replicate 4294967296 pkt3 ++ [pkt3]))) ∧
      g1.s_pkt_num.val = 1 ∧ g1.s_pkt_num.val ≠ 4294967296 + 1 := by
  have hrun := logAll_raw_overflow rawLogger rfl (List.replicate 4294967296 (frame0, pkt3))
    (frame0, pkt3) open0 sink0 rfl rfl rfl
    (by intro d hd; rw [List.eq_of_mem_replicate hd]; decide) (by decide)
    (List.length_replicate _ _)
  rw [List.map_replicate] at hrun
  refine ⟨_, hrun, rfl, ?_, rfl, by decide⟩
  intro h
  have h1 := congrArg TextLog.text (Option.some.inj h)
  have hl : (List.replicate 4294967296 pkt3).length = 4294967296 :=
    List.length_replicate _ _
  rw [rawRecords_append, hl] at h1
  simp only [TextLog.append] at h1
  have h2 := List.append_cancel_left (List.append_cancel_left h1)
  revert h2
  decide

/-- C6 (amended): in raw mode, for every packet, with or without TCP payload,
`log` first prints a line break, the header `# <seq> [<caplen>]` with `seq` the
counter before the call and `caplen` the capture length, both in decimal, and a
line break, then runs `log_data` on the first `caplen` bytes of the raw buffer,
which appends their dump; afterwards the counter is `(seq + 1) mod 2^32`, that
is `seq + 1` unless `seq` was `2^32 - 1`. -/
theorem log_raw_mode (self : HextLogger) (fr : Frame) (p : Packet) (g : Globals)
    (t : TextLog) (hraw : self.raw = true) (hg : g.hext_log = some t) (hlive : t.live = true)
    (hwf : p.caplen.val ≤ p.pkt.length) :
    ∃ g1 g2 : Globals,
      log_raw p g = some g1 ∧
      g1 = { hext_log := some (t.append (['\n', '#', ' '] ++ fmt_u g.s_pkt_num.val
                ++ [' ', '['] ++ fmt_u p.caplen.val ++ [']', '\n'])),
             s_pkt_num := wrap32 (g.s_pkt_num.val + 1) } ∧
      log_data fr p.pkt p.caplen.val g1 = some g2 ∧
      self.log fr p g = some g2 ∧
      g2 = { hext_log := some (t.append ((['\n', '#', ' '] ++ fmt_u g.s_pkt_num.val
                ++ [' ', '['] ++ fmt_u p.caplen.val ++ [']', '\n'])
                ++ dumpText (p.pkt.take p.caplen.val))),
             s_pkt_num := wrap32 (g.s_pkt_num.val + 1) } ∧
      g2.s_pkt_num.val = (g.s_pkt_num.val + 1) % 4294967296 ∧
      (g.s_pkt_num.val ≠ 4294967295 → g2.s_pkt_num.val = g.s_pkt_num.val + 1) := by
  have h1 := log_raw_eq p g t hg hlive
  have h2 := log_data_eq fr p.pkt p.caplen.val
    { hext_log := some (t.append (rawHeader g.s_pkt_num.val p.caplen.val)),
      s_pkt_num := wrap32 (g.s_pkt_num.val + 1) }
    (t.append (rawHeader g.s_pkt_num.val p.caplen.val)) rfl (TextLog.append_live t _ hlive) hwf
  rw [TextLog.append_append] at h2
  refine ⟨_, _, h1, rfl, h2, ?_, rfl, rfl, ?_⟩
  · exact log_raw_mode_eq self fr p g t hraw hg hlive hwf
  · intro hne
    have := g.s_pkt_num.isLt
    show (g.s_pkt_num.val + 1) % 4294967296 = g.s_pkt_num.val + 1
    exact Nat.mod_eq_of_lt (by omega)

/-- Witness of C6: a packet of three bytes in raw mode, counter at 0. -/
theorem log_raw_mode_witness :
    (rawLogger.raw = true ∧ open0.hext_log = some sink0 ∧ sink0.live = true ∧
      pkt3.caplen.val ≤ pkt3.pkt.length) ∧
    ∃ g1 g2 : Globals,
      log_raw pkt3 open0 = some g1 ∧
      g1 = { hext_log := some (sink0.append (['\n', '#', ' '] ++ fmt_u open0.s_pkt_num.val
                ++ [' ', '['] ++ fmt_u pkt3.caplen.val ++ [']', '\n'])),
             s_pkt_num := wrap32 (open0.s_pkt_num.val + 1) } ∧
      log_data frame0 pkt3.pkt pkt3.caplen.val g1 = some g2 ∧
      rawLogger.log frame0 pkt3 open0 = some g2 ∧
      g2 = { hext_log := some (sink0.append ((['\n', '#', ' '] ++ fmt_u open0.s_pkt_num.val
                ++ [' ', '['] ++ fmt_u pkt3.caplen.val ++ [']', '\n'])
                ++ dumpText (pkt3.pkt.take pkt3.caplen.val))),
             s_pkt_num := wrap32 (open0.s_pkt_num.val + 1) } ∧
      g2.s_pkt_num.val = (open0.s_pkt_num.val + 1) % 4294967296 ∧
      (open0.s_pkt_num.val ≠ 4294967295 → g2.s_pkt_num.val = open0.s_pkt_num.val + 1) :=
  ⟨⟨rfl, rfl, rfl, by decide⟩,
    log_raw_mode rawLogger frame0 pkt3 open0 sink0 rfl rfl rfl (by decide)⟩

/-- C6 as stated fails when the counter is `2^32 - 1`: after the call the
counter is 0, not `seq + 1`. -/
theorem log_raw_mode_counterexample :
    ∃ g2, rawLogger.log frame0 pkt3 openMax = some g2 ∧
      g2.s_pkt_num.val = 0 ∧ g2.s_pkt_num.val ≠ openMax.s_pkt_num.val + 1 := by
  refine ⟨_, log_raw_mode_eq rawLogger frame0 pkt3 openMax sink0 rfl rfl rfl (by decide), ?_, ?_⟩
  · decide
  · decide

/-- C7: in payload mode, for every packet that carries TCP payload data, `log`
first prints a line break, the header `$packet <src> <sport> -> <dst> <dport>`
with the address texts and the ports in decimal, and a line break, then runs
`log_data` on the payload buffer of length `dsize` only, which appends its
dump; the sequence counter is not changed. -/
theorem log_payload_mode (self : HextLogger) (fr : Frame) (p : Packet) (g : Globals)
    (t : TextLog) (hraw : self.raw = false) (htcp : p.has_tcp_data = true)
    (hg : g.hext_log = some t) (hlive : t.live = true) (hwf : p.dsize.val ≤ p.data.length) :
    ∃ g1 g2 : Globals,
      log_header p g = some g1 ∧
      g1 = { hext_log := some (t.append (['\n', '$', 'p', 'a', 'c', 'k', 'e', 't', ' ']
                ++ sfip_ntop p.src ++ [' '] ++ fmt_u p.sp.val ++ [' ', '-', '>', ' ']
                ++ sfip_ntop p.dst ++ [' '] ++ fmt_u p.dp.val ++ ['\n'])),
             s_pkt_num := g.s_pkt_num } ∧
      log_data fr p.data p.dsize.val g1 = some g2 ∧
      self.log fr p g = some g2 ∧
      g2 = { hext_log := some (t.append ((['\n', '$', 'p', 'a', 'c', 'k', 'e', 't', ' ']
                ++ sfip_ntop p.src ++ [' '] ++ fmt_u p.sp.val ++ [' ', '-', '>', ' ']
                ++ sfip_ntop p.dst ++ [' '] ++ fmt_u p.dp.val ++ ['\n'])
                ++ dumpText (p.data.take p.dsize.val))),
             s_pkt_num := g.s_pkt_num } ∧
      g2.s_pkt_num = g.s_pkt_num := by
  have h1 := log_header_eq p g t hg hlive
  have h2 := log_data_eq fr p.data p.dsize.val
    { hext_log := some (t.append
        (sessionHeader (sfip_ntop p.src) p.sp.val (sfip_ntop p.dst) p.dp.val)),
      s_pkt_num := g.s_pkt_num }
    (t.append (sessionHeader (sfip_ntop p.src) p.sp.val (sfip_ntop p.dst) p.dp.val)) rfl
    (TextLog.append_live t _ hlive) hwf
  rw [TextLog.append_append] at h2
  exact ⟨_, _, h1, rfl, h2, log_payload_mode_eq self fr p g t hraw htcp hg hlive hwf, rfl, rfl⟩

/-- Witness of C7: a packet with three bytes of TCP payload. -/
theorem log_payload_mode_witness :
    (payloadLogger.raw = false ∧ pktTcp.has_tcp_data = true ∧ open0.hext_log = some sink0 ∧
      sink0.live = true ∧ pktTcp.dsize.val ≤ pktTcp.data.length) ∧
    ∃ g1 g2 : Globals,
      log_header pktTcp open0 = some g1 ∧
      g1 = { hext_log := some (sink0.append (['\n', '$', 'p', 'a', 'c', 'k', 'e', 't', ' ']
                ++ sfip_ntop pktTcp.src ++ [' '] ++ fmt_u pktTcp.sp.val ++ [' ', '-', '>', ' ']
                ++ sfip_ntop pktTcp.dst ++ [' '] ++ fmt_u pktTcp.dp.val ++ ['\n'])),
             s_pkt_num := open0.s_pkt_num } ∧
      log_data frame0 pktTcp.data pktTcp.dsize.val g1 = some g2 ∧
      payloadLogger.log frame0 pktTcp open0 = some g2 ∧
      g2 = { hext_log := some (sink0.append ((['\n', '$', 'p', 'a', 'c', 'k', 'e', 't', ' ']
                ++ sfip_ntop pktTcp.src ++ [' '] ++ fmt_u pktTcp.sp.val ++ [' ', '-', '>', ' ']
                ++ sfip_ntop pktTcp.dst ++ [' '] ++ fmt_u pktTcp.dp.val ++ ['\n'])
                ++ dumpText (pktTcp.data.take pktTcp.dsize.val))),
             s_pkt_num := open0.s_pkt_num } ∧
      g2.s_pkt_num = open0.s_pkt_num :=
  ⟨⟨rfl, rfl, rfl, rfl, by decide⟩,
    log_payload_mode payloadLogger frame0 pktTcp open0 sink0 rfl rfl rfl rfl (by decide)⟩

/-- C8: in payload mode, for every packet that carries no TCP payload data,
`log` returns with the file-scope state (sink handle, text handed to the sink,
sequence counter) exactly as it was, whatever the state is. -/
theorem log_no_payload_noop (self : HextLogger) (fr : Frame) (p : Packet) (g : Globals)
    (hraw : self.raw = false) (htcp : p.has_tcp_data = false) :
    self.log fr p g = some g := by
  simp [HextLogger.log, hraw, htcp]

/-- Witness of C8: a packet without TCP payload in payload mode. -/
theorem log_no_payload_noop_witness :
    (payloadLogger.raw = false ∧ pkt3.has_tcp_data = false) ∧
    payloadLogger.log frame0 pkt3 open0 = some open0 :=
  ⟨⟨rfl, rfl⟩, log_no_payload_noop payloadLogger frame0 pkt3 open0 rfl rfl⟩

/-! ## The configuration module -/

theorem wrap64_val (n : Nat) : (wrap64 n).val = n % 18446744073709551616 := rfl

theorem end_while_eq : ∀ (fuel : Nat) (m : HextModule), m.units.val < fuel →
    end_while fuel m =
      { file := m.file, raw := m.raw,
        limit := wrap64 (m.limit.val * 1024 ^ m.units.val),
        units := wrap32 4294967295 } := by
  intro fuel
  induction fuel with
  | zero => intro m h; simp at h
  | succ fuel ih =>
    intro m h
    have hlt := m.units.isLt
    by_cases hz : m.units.val = 0
    · have hl : wrap64 (m.limit.val * 1024 ^ 0) = m.limit := by
        apply Fin.ext
        rw [wrap64_val, Nat.pow_zero, Nat.mul_one]
        exact Nat.mod_eq_of_lt m.limit.isLt
      simp only [end_while, hz, ne_eq, not_true_eq_false, if_false, Nat.zero_add, hl]
    · have hu : (wrap32 (m.units.val + 4294967295)).val = m.units.val - 1 := by
        rw [wrap32_val]; omega
      have hrec := ih ⟨m.file, m.raw, wrap64 (m.limit.val * 1024),
        wrap32 (m.units.val + 4294967295)⟩ (by rw [hu]; omega)
      simp only [end_while, ne_eq, hz, not_false_eq_true, if_true, hrec, hu]
      have hp : 1024 ^ m.units.val = 1024 * 1024 ^ (m.units.val - 1) := by
        obtain ⟨k, hk⟩ := Nat.exists_eq_succ_of_ne_zero hz
        rw [hk, Nat.succ_sub_one, Nat.pow_succ']
      have hl : wrap64 ((wrap64 (m.limit.val * 1024)).val * 1024 ^ (m.units.val - 1))
          = wrap64 (m.limit.val * 1024 ^ m.units.val) := by
        apply Fin.ext
        simp only [wrap64_val]
        rw [hp, ← Nat.mul_assoc, Nat.mod_mul_mod]
      rw [hl]

theorem end_eq (m : HextModule) :
    m.end_ = (true, ⟨m.file, m.raw, wrap64 (m.limit.val * 1024 ^ m.units.val),
      wrap32 4294967295⟩) := by
  simp only [HextModule.end_, end_while_eq (m.units.val + 1) m (Nat.lt_succ_self _)]

/-- C9 (amended): for every configured limit and every units index in
`{0,1,2,3}`, `end` returns true and leaves `limit` equal to the configured
limit multiplied by 1024 exactly `units` times, reduced modulo `2^64`; it is
`limit * 1024^units` whenever that product is below `2^64`. In particular limit
5 with units M resolves to 5242880 and limit 0 with units G resolves to 0. -/
theorem end_limit (m : HextModule) (_hu : m.units.val ≤ 3) :
    m.end_.1 = true ∧
    m.end_.2.limit.val = (m.limit.val * 1024 ^ m.units.val) % 18446744073709551616 ∧
    (m.limit.val * 1024 ^ m.units.val < 18446744073709551616 →
      m.end_.2.limit.val = m.limit.val * 1024 ^ m.units.val) ∧
    m.end_.2.file = m.file ∧ m.end_.2.raw = m.raw ∧
    (∀ f r : Bool,
      (HextModule.end_ { file := f, raw := r, limit := 5, units := 2 }).2.limit.val = 5242880 ∧
      (HextModule.end_ { file := f, raw := r, limit := 0, units := 3 }).2.limit.val = 0) := by
  rw [end_eq m]
  refine ⟨rfl, rfl, fun h => Nat.mod_eq_of_lt h, rfl, rfl, fun f r => ?_⟩
  cases f <;> cases r <;> decide

/-- Witness of C9: limit 5 with units M. -/
theorem end_limit_witness :
    module5M.units.val ≤ 3 ∧
    (module5M.end_.1 = true ∧
    module5M.end_.2.limit.val
      = (module5M.limit.val * 1024 ^ module5M.units.val) % 18446744073709551616 ∧
    (module5M.limit.val * 1024 ^ module5M.units.val < 18446744073709551616 →
      module5M.end_.2.limit.val = module5M.limit.val * 1024 ^ module5M.units.val) ∧
    module5M.end_.2.file = module5M.file ∧ module5M.end_.2.raw = module5M.raw ∧
    (∀ f r : Bool,
      (HextModule.end_ { file := f, raw := r, limit := 5, units := 2 }).2.limit.val = 5242880 ∧
      (HextModule.end_ { file := f, raw := r, limit := 0, units := 3 }).2.limit.val = 0)) :=
  ⟨by decide, end_limit module5M (by decide)⟩

/-- C9 as stated fails for a large limit: limit `2^34` with units G resolves
to 0, not to `2^34 * 1024^3 = 2^64`. -/
theorem end_limit_counterexample :
    moduleBig.units.val ≤ 3 ∧ moduleBig.end_.2.limit.val = 0 ∧
    moduleBig.end_.2.limit.val ≠ moduleBig.limit.val * 1024 ^ moduleBig.units.val := by
  decide

/-- C10: `set` returns true exactly when the name of the assignment is one of
`file`, `raw`, `limit`, `units`; for every other name, `bogus` for one, it
returns false and leaves the four fields as they were. -/
theorem set_recognized (m : HextModule) (v : Value) :
    ((m.set v).1 = true ↔ v.name ∈ ["file", "raw", "limit", "units"]) ∧
    (v.name ∉ ["file", "raw", "limit", "units"] → m.set v = (false, m)) ∧
    (∀ (b : Bool) (l : Int),
      m.set { name := "bogus", get_bool := b, get_long := l } = (false, m)) := by
  refine ⟨?_, ?_, ?_⟩
  · simp only [HextModule.set, Value.is, List.mem_cons, List.mem_singleton, List.not_mem_nil,
      or_false, decide_eq_true_eq]
    split_ifs with h1 h2 h3 h4 <;> simp [*]
  · intro h
    simp only [List.mem_cons, List.mem_singleton, List.not_mem_nil, or_false, not_or] at h
    simp [HextModule.set, Value.is, h.1, h.2.1, h.2.2.1, h.2.2.2]
  · intro b l
    simp [HextModule.set, Value.is]

/-! ## Buffers that end on a full line, and the empty buffer -/

set_option maxRecDepth 100000 in
theorem hexGroup_spaces : ∀ b : uint8_t,
    hexDigit (b.val / 16) ≠ ' ' ∧ hexDigit (b.val % 16) ≠ ' ' := by
  decide

theorem hexColumn_space_index (c : List uint8_t) :
    ∀ j, (hexColumn c)[j]? = some ' ' → j % 3 = 2 := by
  induction c with
  | nil => intro j h; simp [hexColumn] at h
  | cons b c ih =>
    intro j h
    have e : hexColumn (b :: c) = hexGroup b ++ hexColumn c := by
      simp [hexColumn, List.flatMap_cons]
    rw [e] at h
    by_cases hj : j < 3
    · rw [List.getElem?_append_left (by simpa [hexGroup] using hj)] at h
      have hcase : j = 0 ∨ j = 1 ∨ j = 2 := by omega
      rcases hcase with rfl | rfl | rfl
      · simp only [hexGroup, List.getElem?_cons_zero, Option.some.injEq] at h
        exact absurd h (hexGroup_spaces b).1
      · simp only [hexGroup, List.getElem?_cons_succ, List.getElem?_cons_zero,
          Option.some.injEq] at h
        exact absurd h (hexGroup_spaces b).2
      · rfl
    · have h3 : (hexGroup b).length = 3 := rfl
      have hge : (hexGroup b).length ≤ j := by rw [h3]; omega
      rw [List.getElem?_append_right hge, h3] at h
      have := ih (j - 3) h
      omega

theorem unlines_getLast (ls : List (List Char)) (h : ls ≠ []) :
    ('\n' :: unlines ls).getLast? = some '\n' := by
  obtain ⟨init, last, rfl⟩ : ∃ init last, ls = init ++ [last] :=
    ⟨ls.dropLast, ls.getLast h, (List.dropLast_append_getLast h).symm⟩
  have e : '\n' :: unlines (init ++ [last]) = ('\n' :: (unlines init ++ last)) ++ ['\n'] := by
    simp [unlines, List.flatMap_append]
  rw [e, List.getLast?_concat]

/-- C12: for a buffer of length 0, `log_data` appends exactly one line break
to the sink and nothing else; the counter is untouched. -/
theorem log_data_empty (fr : Frame) (p : List uint8_t) (g : Globals) (t : TextLog)
    (hg : g.hext_log = some t) (hlive : t.live = true) :
    log_data fr p 0 g = some
      { hext_log := some (t.append ['\n']), s_pkt_num := g.s_pkt_num } := by
  rw [log_data_eq fr p 0 g t hg hlive (Nat.zero_le _)]
  simp [dumpText, dataLines, unlines]

/-- Witness of C12: the empty dump on a fresh sink. -/
theorem log_data_empty_witness :
    (open0.hext_log = some sink0 ∧ sink0.live = true) ∧
    log_data frame0 [] 0 open0 = some
      { hext_log := some (sink0.append ['\n']), s_pkt_num := open0.s_pkt_num } :=
  ⟨⟨rfl, rfl⟩, log_data_empty frame0 [] open0 sink0 rfl rfl⟩

theorem dataLine_full (c : List uint8_t) (h : c.length = 20) :
    dataLine c = ['x'] ++ c.flatMap hexGroup ++ [' ', '#', ' '] ++ c.map txtChar := by
  simp [dataLine, hexColumn, LOG_CHARS, h, padding]

/-- C11: for a buffer of length `20*m` with `m > 0`, `log_data` appends a line
break and exactly `m` data lines, each of them a full line: `x`, the 20 hex
groups of its bytes, then directly `" # "` and the 20 ASCII-column characters,
with no padding group in between (a space of a hex column only ever sits at the
third place of a group). The appended text ends with the line break of the
`m`-th line. In particular, in payload mode a TCP payload of 20 bytes yields
the `$packet` header followed by a line break and exactly one full line. -/
theorem log_data_full_lines (fr : Frame) (p : List uint8_t) (n : Nat) (g : Globals)
    (t : TextLog) (hg : g.hext_log = some t) (hlive : t.live = true) (hn : n ≤ p.length)
    (m : Nat) (hm : 0 < m) (hnm : n = 20 * m) :
    (∃ lines : List (List Char),
      log_data fr p n g = some
        { hext_log := some (t.append ('\n' :: unlines lines)), s_pkt_num := g.s_pkt_num } ∧
      (∀ l ∈ lines, '\n' ∉ l) ∧
      lines.length = m ∧
      (∀ i, i < m → lines[i]? = some (['x'] ++ ((p.drop (20 * i)).take 20).flatMap hexGroup
        ++ [' ', '#', ' '] ++ ((p.drop (20 * i)).take 20).map txtChar) ∧
        ((p.drop (20 * i)).take 20).length = 20) ∧
      ('\n' :: unlines lines).getLast? = some '\n') ∧
    (∀ (c : List uint8_t) (j : Nat), (c.flatMap hexGroup)[j]? = some ' ' → j % 3 = 2) ∧
    (∀ (self : HextLogger) (pk : Packet) (g1 : Globals) (t1 : TextLog),
      self.raw = false → pk.has_tcp_data = true → g1.hext_log = some t1 → t1.live = true →
      pk.dsize.val = 20 → 20 ≤ pk.data.length →
      self.log fr pk g1 = some
        { hext_log := some (t1.append
            ((['\n', '$', 'p', 'a', 'c', 'k', 'e', 't', ' '] ++ sfip_ntop pk.src ++ [' ']
                ++ fmt_u pk.sp.val ++ [' ', '-', '>', ' '] ++ sfip_ntop pk.dst ++ [' ']
                ++ fmt_u pk.dp.val ++ ['\n'])
              ++ ('\n' :: (['x'] ++ (pk.data.take 20).flatMap hexGroup ++ [' ', '#', ' ']
                ++ (pk.data.take 20).map txtChar ++ ['\n'])))),
          s_pkt_num := g1.s_pkt_num }) := by
  have hlen := length_take_of_le p n hn
  have hcount : ((p.take n).length + 19) / 20 = m := by rw [hlen, hnm]; omega
  refine ⟨⟨dataLines (p.take n), log_data_eq fr p n g t hg hlive hn, fun l hl => ?_, ?_,
    fun i hi => ⟨?_, ?_⟩, ?_⟩, hexColumn_space_index, ?_⟩
  · obtain ⟨j, _, rfl⟩ := mem_dataLines _ _ hl
    exact dataLine_no_newline _
  · rw [dataLines_length, hcount]
  · have hi2 : 20 * i + 20 ≤ n := by rw [hnm]; omega
    rw [dataLines_getElem? _ _ (by rw [hcount]; exact hi), ← chunk_take p n i hi2]
    exact congrArg some (dataLine_full _ (chunk_length_full _ _ (by rw [hlen]; exact hi2)))
  · simp only [List.length_take, List.length_drop]
    omega
  · apply unlines_getLast
    intro hnil
    have := dataLines_length (p.take n)
    rw [hnil, hcount] at this
    simp only [List.length_nil] at this
    omega
  · intro self pk g1 t1 hraw htcp hg1 hl1 hd hdata
    have hwf : pk.dsize.val ≤ pk.data.length := by rw [hd]; exact hdata
    rw [log_payload_mode_eq self fr pk g1 t1 hraw htcp hg1 hl1 hwf, hd]
    have hl20 : (pk.data.take 20).length = 20 := length_take_of_le _ _ hdata
    have hdl : dataLines (pk.data.take 20) = [dataLine (pk.data.take 20)] :=
      dataLines_short _ (by intro h0; rw [h0] at hl20; simp at hl20) (by rw [hl20])
    simp only [dumpText, hdl, unlines, List.flatMap_cons, List.flatMap_nil, List.append_nil,
      dataLine_full _ hl20, sessionHeader]

/-- Witness of C11: a buffer and a TCP payload of exactly 20 bytes. -/
theorem log_data_full_lines_witness :
    (open0.hext_log = some sink0 ∧ sink0.live = true ∧ 20 ≤ bytes20.length ∧ 0 < 1 ∧
      20 = 20 * 1) ∧
    ((∃ lines : List (List Char),
      log_data frame0 bytes20 20 open0 = some
        { hext_log := some (sink0.append ('\n' :: unlines lines)),
          s_pkt_num := open0.s_pkt_num } ∧
      (∀ l ∈ lines, '\n' ∉ l) ∧
      lines.length = 1 ∧
      (∀ i, i < 1 → lines[i]? = some (['x'] ++ ((bytes20.drop (20 * i)).take 20).flatMap hexGroup
        ++ [' ', '#', ' '] ++ ((bytes20.drop (20 * i)).take 20).map txtChar) ∧
        ((bytes20.drop (20 * i)).take 20).length = 20) ∧
      ('\n' :: unlines lines).getLast? = some '\n') ∧
    (∀ (c : List uint8_t) (j : Nat), (c.flatMap hexGroup)[j]? = some ' ' → j % 3 = 2) ∧
    (∀ (self : HextLogger) (pk : Packet) (g1 : Globals) (t1 : TextLog),
      self.raw = false → pk.has_tcp_data = true → g1.hext_log = some t1 → t1.live = true →
      pk.dsize.val = 20 → 20 ≤ pk.data.length →
      self.log frame0 pk g1 = some
        { hext_log := some (t1.append
            ((['\n', '$', 'p', 'a', 'c', 'k', 'e', 't', ' '] ++ sfip_ntop pk.src ++ [' ']
                ++ fmt_u pk.sp.val ++ [' ', '-', '>', ' '] ++ sfip_ntop pk.dst ++ [' ']
                ++ fmt_u pk.dp.val ++ ['\n'])
              ++ ('\n' :: (['x'] ++ (pk.data.take 20).flatMap hexGroup ++ [' ', '#', ' ']
                ++ (pk.data.take 20).map txtChar ++ ['\n'])))),
          s_pkt_num := g1.s_pkt_num })) ∧
    payloadLogger.log frame0 pktTcp20 open0 = some
      { hext_log := some (sink0.append
          ((['\n', '$', 'p', 'a', 'c', 'k', 'e', 't', ' '] ++ sfip_ntop pktTcp20.src ++ [' ']
              ++ fmt_u pktTcp20.sp.val ++ [' ', '-', '>', ' '] ++ sfip_ntop pktTcp20.dst ++ [' ']
              ++ fmt_u pktTcp20.dp.val ++ ['\n'])
            ++ ('\n' :: (['x'] ++ (pktTcp20.data.take 20).flatMap hexGroup ++ [' ', '#', ' ']
              ++ (pktTcp20.data.take 20).map txtChar ++ ['\n'])))),
        s_pkt_num := open0.s_pkt_num } :=
  ⟨⟨rfl, rfl, by decide, by decide, by decide⟩,
    log_data_full_lines frame0 bytes20 20 open0 sink0 rfl rfl (by decide) 1 (by decide)
      (by decide),
    (log_data_full_lines frame0 bytes20 20 open0 sink0 rfl rfl (by decide) 1 (by decide)
      (by decide)).2.2 payloadLogger pktTcp20 open0 sink0 rfl rfl rfl rfl (by decide)
      (by decide)⟩

/-! ## The worked example of the raw record -/

/-- C13 (amended): in raw mode with the counter at 0, a packet with
`caplen = 3` and bytes `[0x41, 0x42, 0x0A]` makes `log` append the header line
`# 0 [3]` and the single data line `x41 42 0A`, then exactly 53 spaces, then
`# AB.`; the counter becomes 1. -/
theorem log_raw_example (self : HextLogger) (fr : Frame) (p : Packet) (g : Globals)
    (t : TextLog) (hraw : self.raw = true) (hg : g.hext_log = some t) (hlive : t.live = true)
    (h0 : g.s_pkt_num = 0) (hcap : p.caplen.val = 3) (hpkt : p.pkt = [0x41, 0x42, 0x0A]) :
    self.log fr p g = some
      { hext_log := some (t.append
          (['\n'] ++ ['#', ' ', '0', ' ', '[', '3', ']'] ++ ['\n'] ++ ['\n']
            ++ (['x', '4', '1', ' ', '4', '2', ' ', '0', 'A'] ++ List.replicate 53 ' '
              ++ ['#', ' ', 'A', 'B', '.']) ++ ['\n'])),
        s_pkt_num := 1 } := by
  have hwf : p.caplen.val ≤ p.pkt.length := by rw [hcap, hpkt]; decide
  rw [log_raw_mode_eq self fr p g t hraw hg hlive hwf, h0]
  have hrec : rawRecord (0 : uint32_t).val p =
      ['\n'] ++ ['#', ' ', '0', ' ', '[', '3', ']'] ++ ['\n'] ++ ['\n']
        ++ (['x', '4', '1', ' ', '4', '2', ' ', '0', 'A'] ++ List.replicate 53 ' '
          ++ ['#', ' ', 'A', 'B', '.']) ++ ['\n'] := by
    simp only [rawRecord, hcap, hpkt]
    decide
  rw [hrec]
  rfl

/-- Witness of C13: the packet of three bytes on a fresh sink. -/
theorem log_raw_example_witness :
    (rawLogger.raw = true ∧ open0.hext_log = some sink0 ∧ sink0.live = true ∧
      open0.s_pkt_num = 0 ∧ pkt3.caplen.val = 3 ∧ pkt3.pkt = [0x41, 0x42, 0x0A]) ∧
    rawLogger.log frame0 pkt3 open0 = some
      { hext_log := some (sink0.append
          (['\n'] ++ ['#', ' ', '0', ' ', '[', '3', ']'] ++ ['\n'] ++ ['\n']
            ++ (['x', '4', '1', ' ', '4', '2', ' ', '0', 'A'] ++ List.replicate 53 ' '
              ++ ['#', ' ', 'A', 'B', '.']) ++ ['\n'])),
        s_pkt_num := 1 } :=
  ⟨⟨rfl, rfl, rfl, rfl, rfl, rfl⟩,
    log_raw_example rawLogger frame0 pkt3 open0 sink0 rfl rfl rfl rfl rfl rfl⟩

/-- C13 as stated fails: the data line of the example has 53 spaces between
`0A` and `#`, so the text appended is not the one with 56 spaces. -/
theorem log_raw_example_counterexample :
    ∃ g1, rawLogger.log frame0 pkt3 open0 = some g1 ∧
      g1.hext_log = some (sink0.append
        (['\n'] ++ ['#', ' ', '0', ' ', '[', '3', ']'] ++ ['\n'] ++ ['\n']
          ++ (['x', '4', '1', ' ', '4', '2', ' ', '0', 'A'] ++ List.replicate 53 ' '
            ++ ['#', ' ', 'A', 'B', '.']) ++ ['\n'])) ∧
      g1.hext_log ≠ some (sink0.append
        (['\n'] ++ ['#', ' ', '0', ' ', '[', '3', ']'] ++ ['\n'] ++ ['\n']
          ++ (['x', '4', '1', ' ', '4', '2', ' ', '0', 'A'] ++ List.replicate 56 ' '
            ++ ['#', ' ', 'A', 'B', '.']) ++ ['\n'])) := by
  refine ⟨_, log_raw_mode_eq rawLogger frame0 pkt3 open0 sink0 rfl rfl rfl (by decide), ?_, ?_⟩
  · decide
  · decide

/-! ## Defaults and unit resolution without overflow -/

/-- C14: `begin` returns true and resets the configuration to `file = false`,
`raw = false`, `limit = 0`, `units = 0` whatever the fields held before;
`begin` followed at once by `end` yields `limit = 0`, `file = false`,
`raw = false`. -/
theorem begin_defaults (m : HextModule) :
    m.begin = (true, { file := false, raw := false, limit := 0, units := 0 }) ∧
    m.begin.2.end_.1 = true ∧
    m.begin.2.end_.2.limit = 0 ∧
    m.begin.2.end_.2.file = false ∧
    m.begin.2.end_.2.raw = false := by
  refine ⟨rfl, rfl, ?_, ?_, ?_⟩ <;> simp only [HextModule.begin] <;> decide

/-- C20: for every configured limit below `2^34` and every units index in
`{0,1,2,3}`, `end` does not wrap: the product stays below `2^64`, the stored
limit is the mathematical product `limit * 1024^units`, and it is 0 exactly when
the configured limit is 0. -/
theorem end_no_wrap (m : HextModule) (hl : m.limit.val < 17179869184)
    (hu : m.units.val ≤ 3) :
    m.limit.val * 1024 ^ m.units.val < 18446744073709551616 ∧
    m.end_.2.limit.val = m.limit.val * 1024 ^ m.units.val ∧
    (m.end_.2.limit.val = 0 ↔ m.limit.val = 0) := by
  have hcase : m.units.val = 0 ∨ m.units.val = 1 ∨ m.units.val = 2 ∨ m.units.val = 3 := by
    omega
  have hpow : 1024 ^ m.units.val = 1 ∨ 1024 ^ m.units.val = 1024 ∨
      1024 ^ m.units.val = 1048576 ∨ 1024 ^ m.units.val = 1073741824 := by
    rcases hcase with h | h | h | h <;> rw [h] <;> simp
  have hlt : m.limit.val * 1024 ^ m.units.val < 18446744073709551616 := by
    rcases hpow with h | h | h | h <;> rw [h] <;> omega
  have hval : m.end_.2.limit.val = m.limit.val * 1024 ^ m.units.val := by
    rw [end_eq m]
    exact Nat.mod_eq_of_lt hlt
  refine ⟨hlt, hval, ?_⟩
  rw [hval]
  rcases hpow with h | h | h | h <;> rw [h] <;> omega

/-- Witness of C20: limit 5 with units M. -/
theorem end_no_wrap_witness :
    (module5M.limit.val < 17179869184 ∧ module5M.units.val ≤ 3) ∧
    (module5M.limit.val * 1024 ^ module5M.units.val < 18446744073709551616 ∧
    module5M.end_.2.limit.val = module5M.limit.val * 1024 ^ module5M.units.val ∧
    (module5M.end_.2.limit.val = 0 ↔ module5M.limit.val = 0)) :=
  ⟨⟨by decide, by decide⟩, end_no_wrap module5M (by decide) (by decide)⟩

/-! ## The life cycle: `open`, `close` and calls out of state -/

theorem TextLog_Print_dead (h : Option TextLog) (s : List Char)
    (hstate : h = none ∨ ∃ t, h = some t ∧ t.live = false) :
    TextLog_Print h s = none := by
  rcases hstate with rfl | ⟨t, rfl, ht⟩
  · rfl
  · simp [TextLog_Print, ht]

theorem close_live (self : HextLogger) (g : Globals) (t : TextLog) (hg : g.hext_log = some t)
    (hlive : t.live = true) :
    self.close g = some { hext_log := some (TextLog_Term t), s_pkt_num := g.s_pkt_num } := by
  simp [HextLogger.close, hg, hlive]

/-- C15 (amended): `open` creates a fresh sink and leaves the sequence counter
as it is. The first packet processed in raw mode after an `open` gets the
counter value from before the `open` as its header sequence number: 0 after the
first `open` of the thread, and `N mod 2^32` when an earlier session, since
closed, has processed `N` raw packets. -/
theorem open_keeps_counter (self : HextLogger) (fr : Frame) (p : Packet) (g : Globals)
    (hraw : self.raw = true) (hwf : p.caplen.val ≤ p.pkt.length) :
    (self.open_ g).s_pkt_num = g.s_pkt_num ∧
    (self.open_ g).hext_log = some (TextLog_Init self.file 65536 self.limit.val) ∧
    self.log fr p (self.open_ g) = some
      { hext_log := some ((TextLog_Init self.file 65536 self.limit.val).append
          (rawHeader g.s_pkt_num.val p.caplen.val ++ dumpText (p.pkt.take p.caplen.val))),
        s_pkt_num := wrap32 (g.s_pkt_num.val + 1) } ∧
    self.log fr p (self.open_ Globals.init) = some
      { hext_log := some ((TextLog_Init self.file 65536 self.limit.val).append
          (rawHeader 0 p.caplen.val ++ dumpText (p.pkt.take p.caplen.val))),
        s_pkt_num := 1 } ∧
    (∀ cs : List (Frame × Packet), (∀ c ∈ cs, c.2.caplen.val ≤ c.2.pkt.length) →
      ∃ g1 g2 : Globals,
        logAll self cs (self.open_ Globals.init) = some g1 ∧
        self.close g1 = some g2 ∧
        (self.open_ g2).s_pkt_num = wrap32 cs.length ∧
        self.log fr p (self.open_ g2) = some
          { hext_log := some ((TextLog_Init self.file 65536 self.limit.val).append
              (rawHeader (cs.length % 4294967296) p.caplen.val
                ++ dumpText (p.pkt.take p.caplen.val))),
            s_pkt_num := wrap32 (cs.length % 4294967296 + 1) }) := by
  have hstep : ∀ g0 : Globals, self.log fr p (self.open_ g0) = some
      { hext_log := some ((TextLog_Init self.file 65536 self.limit.val).append
          (rawHeader g0.s_pkt_num.val p.caplen.val ++ dumpText (p.pkt.take p.caplen.val))),
        s_pkt_num := wrap32 (g0.s_pkt_num.val + 1) } := fun g0 =>
    log_raw_mode_eq self fr p (self.open_ g0) _ hraw rfl rfl hwf
  refine ⟨rfl, rfl, hstep g, hstep Globals.init, fun cs hcs => ?_⟩
  have hrun := logAll_raw_wrap self hraw cs (self.open_ Globals.init)
    (TextLog_Init self.file 65536 self.limit.val) rfl rfl hcs
  have hz : (self.open_ Globals.init).s_pkt_num.val + cs.length = cs.length := by
    show 0 + cs.length = cs.length
    omega
  rw [hz] at hrun
  refine ⟨_, _, hrun, close_live self _ _ rfl (TextLog.append_live _ _ rfl), rfl, ?_⟩
  exact hstep _

/-- Witness of C15: the first packet after the first `open`. -/
theorem open_keeps_counter_witness :
    (rawLogger.raw = true ∧ pkt3.caplen.val ≤ pkt3.pkt.length) ∧
    ((rawLogger.open_ open0).s_pkt_num = open0.s_pkt_num ∧
    (rawLogger.open_ open0).hext_log
      = some (TextLog_Init rawLogger.file 65536 rawLogger.limit.val) ∧
    rawLogger.log frame0 pkt3 (rawLogger.open_ open0) = some
      { hext_log := some ((TextLog_Init rawLogger.file 65536 rawLogger.limit.val).append
          (rawHeader open0.s_pkt_num.val pkt3.caplen.val
            ++ dumpText (pkt3.pkt.take pkt3.caplen.val))),
        s_pkt_num := wrap32 (open0.s_pkt_num.val + 1) } ∧
    rawLogger.log frame0 pkt3 (rawLogger.open_ Globals.init) = some
      { hext_log := some ((TextLog_Init rawLogger.file 65536 rawLogger.limit.val).append
          (rawHeader 0 pkt3.caplen.val ++ dumpText (pkt3.pkt.take pkt3.caplen.val))),
        s_pkt_num := 1 } ∧
    (∀ cs : List (Frame × Packet), (∀ c ∈ cs, c.2.caplen.val ≤ c.2.pkt.length) →
      ∃ g1 g2 : Globals,
        logAll rawLogger cs (rawLogger.open_ Globals.init) = some g1 ∧
        rawLogger.close g1 = some g2 ∧
        (rawLogger.open_ g2).s_pkt_num = wrap32 cs.length ∧
        rawLogger.log frame0 pkt3 (rawLogger.open_ g2) = some
          { hext_log := some ((TextLog_Init rawLogger.file 65536 rawLogger.limit.val).append
              (rawHeader (cs.length % 4294967296) pkt3.caplen.val
                ++ dumpText (pkt3.pkt.take pkt3.caplen.val))),
            s_pkt_num := wrap32 (cs.length % 4294967296 + 1) })) :=
  ⟨⟨rfl, by decide⟩, open_keeps_counter rawLogger frame0 pkt3 open0 rfl (by decide)⟩

/-- C15 as stated fails: after a first session that processed one raw packet
and was closed, the first packet of the second session gets the header
`# 1 [3]`, not `# 0 [3]`. -/
theorem open_keeps_counter_counterexample :
    ∃ g1 g2 g3 : Globals,
      rawLogger.log frame0 pkt3 (rawLogger.open_ Globals.init) = some g1 ∧
      rawLogger.close g1 = some g2 ∧
      rawLogger.log frame0 pkt3 (rawLogger.open_ g2) = some g3 ∧
      g3.hext_log = some (sink0.append (rawHeader 1 3 ++ dumpText [0x41, 0x42, 0x0A])) ∧
      rawHeader 1 3 = ['\n', '#', ' ', '1', ' ', '[', '3', ']', '\n'] ∧
      g3.hext_log ≠ some (sink0.append (rawHeader 0 3 ++ dumpText [0x41, 0x42, 0x0A])) := by
  refine ⟨_, _, _,
    log_raw_mode_eq rawLogger frame0 pkt3 (rawLogger.open_ Globals.init) sink0 rfl rfl rfl
      (by decide),
    close_live rawLogger _ _ rfl rfl,
    log_raw_mode_eq rawLogger frame0 pkt3 (rawLogger.open_ _) sink0 rfl rfl rfl (by decide),
    ?_, ?_, ?_⟩
  · decide
  · decide
  · decide

/-- C16: `close` called while the sink handle is still null, as it is when no
`open` has happened, returns with the handle and the sequence counter
unchanged; the branch that terminates a sink is not taken. -/
theorem close_unopened (self : HextLogger) (g : Globals) (h : g.hext_log = none) :
    self.close g = some g ∧ Globals.init.hext_log = none ∧
    self.close Globals.init = some Globals.init := by
  refine ⟨?_, rfl, rfl⟩
  simp [HextLogger.close, h]

/-- Witness of C16: `close` on the initial file-scope state. -/
theorem close_unopened_witness :
    Globals.init.hext_log = none ∧
    (rawLogger.close Globals.init = some Globals.init ∧ Globals.init.hext_log = none ∧
      rawLogger.close Globals.init = some Globals.init) :=
  ⟨rfl, close_unopened rawLogger Globals.init rfl⟩

/-- C17 (amended): `log` makes no test of the state. While the sink handle is
null (Unopened) or refers to a terminated sink (Closed), `log` is a no-op
exactly for a packet without TCP data in payload mode; in raw mode, and for a
packet with TCP data, it prints through the handle as it is, which has no
defined result. -/
theorem log_out_of_state (self : HextLogger) (fr : Frame) (p : Packet) (g : Globals)
    (hstate : g.hext_log = none ∨ ∃ t, g.hext_log = some t ∧ t.live = false) :
    (self.log fr p g = some g ↔ (self.raw = false ∧ p.has_tcp_data = false)) ∧
    ((self.raw = true ∨ p.has_tcp_data = true) → self.log fr p g = none) := by
  have hraw : log_raw p g = none := by
    simp only [log_raw, TextLog_Print_dead g.hext_log _ hstate, Option.bind_eq_bind,
      Option.none_bind]
  have hhdr : log_header p g = none := by
    simp only [log_header, TextLog_Print_dead g.hext_log _ hstate, Option.bind_eq_bind,
      Option.none_bind]
  have hnone : (self.raw = true ∨ p.has_tcp_data = true) → self.log fr p g = none := by
    intro h
    by_cases hr : self.raw = true
    · simp [HextLogger.log, hr, hraw]
    · simp only [Bool.not_eq_true] at hr
      have ht : p.has_tcp_data = true := by
        rcases h with h | h
        · rw [hr] at h; exact absurd h (by decide)
        · exact h
      simp [HextLogger.log, hr, ht, hhdr]
  refine ⟨⟨fun h => ?_, fun h => ?_⟩, hnone⟩
  · by_cases hr : self.raw = true
    · rw [hnone (Or.inl hr)] at h; exact absurd h (by simp)
    · by_cases ht : p.has_tcp_data = true
      · rw [hnone (Or.inr ht)] at h; exact absurd h (by simp)
      · exact ⟨by simpa using hr, by simpa using ht⟩
  · simp [HextLogger.log, h.1, h.2]

/-- Witness of C17: a packet in raw mode before any `open`. -/
theorem log_out_of_state_witness :
    (Globals.init.hext_log = none ∨
      ∃ t, Globals.init.hext_log = some t ∧ t.live = false) ∧
    ((rawLogger.log frame0 pkt3 Globals.init = some Globals.init ↔
        (rawLogger.raw = false ∧ pkt3.has_tcp_data = false)) ∧
     ((rawLogger.raw = true ∨ pkt3.has_tcp_data = true) →
        rawLogger.log frame0 pkt3 Globals.init = none)) :=
  ⟨Or.inl rfl, log_out_of_state rawLogger frame0 pkt3 Globals.init (Or.inl rfl)⟩

/-- C17 as stated fails: in raw mode, before any `open` and after a `close`,
`log` does not return the state unchanged; it has no defined result. -/
theorem log_out_of_state_counterexample :
    rawLogger.log frame0 pkt3 Globals.init ≠ some Globals.init ∧
    rawLogger.log frame0 pkt3 Globals.init = none ∧
    rawLogger.close open0 = some closed0 ∧
    rawLogger.log frame0 pkt3 closed0 ≠ some closed0 ∧
    payloadLogger.log frame0 pktTcp closed0 ≠ some closed0 := by
  decide

/-! ## The dump can be read back -/

set_option maxRecDepth 100000 in
theorem hexValue_hexDigit : ∀ b : uint8_t,
    16 * hexValue (hexDigit (b.val / 16)) + hexValue (hexDigit (b.val % 16)) = b.val := by
  decide

theorem decodeGroups_hexGroup (b : uint8_t) (rest : List Char) :
    decodeGroups (hexGroup b ++ rest) none = b.val :: decodeGroups rest none := by
  have h1 := (hexGroup_spaces b).1
  simp only [hexGroup, List.cons_append, List.nil_append, decodeGroups, if_neg h1, if_true,
    hexValue_hexDigit b]
  rfl

theorem decodeGroups_hexColumn (c : List uint8_t) (rest : List Char) :
    decodeGroups (hexColumn c ++ rest) none
      = c.map (fun b => b.val) ++ decodeGroups rest none := by
  induction c with
  | nil => simp [hexColumn]
  | cons b c ih =>
    have e : hexColumn (b :: c) = hexGroup b ++ hexColumn c := by
      simp [hexColumn, List.flatMap_cons]
    rw [e, List.append_assoc, decodeGroups_hexGroup, ih]
    simp

theorem decodeGroups_spaces (l : List Char) (h : ∀ x ∈ l, x = ' ') :
    decodeGroups l none = [] := by
  induction l with
  | nil => rfl
  | cons c l ih =>
    have hc : c = ' ' := h c (by simp)
    simp only [decodeGroups, hc, if_true]
    exact ih (fun x hx => h x (by simp [hx]))

theorem decodeLine_dataLine (c : List uint8_t) :
    decodeLine (dataLine c) = c.map (fun b => b.val) := by
  have e : (dataLine c).drop 1 = (hexColumn c ++ padding (LOG_CHARS - c.length) ++ [' '])
      ++ ('#' :: ' ' :: c.map txtChar) := by
    simp [dataLine]
  have hp : ∀ a ∈ hexColumn c ++ padding (LOG_CHARS - c.length) ++ [' '],
      (fun x : Char => x != '#') a = true := by
    intro a ha
    have hne : a ≠ '#' := by
      rcases List.mem_append.mp ha with ha | ha
      · intro h; rw [h] at ha; exact hexPart_no_hash _ _ ha
      · rw [List.mem_singleton.mp ha]; decide
    simpa using hne
  have htw : List.takeWhile (fun x : Char => x != '#') ('#' :: ' ' :: c.map txtChar) = [] := by
    apply List.takeWhile_cons_of_neg
    decide
  rw [decodeLine, e, List.takeWhile_append_of_pos hp, htw, List.append_nil, List.append_assoc,
    decodeGroups_hexColumn, decodeGroups_spaces, List.append_nil]
  intro x hx
  rcases List.mem_append.mp hx with hx | hx
  · exact padding_chars _ _ hx
  · exact List.mem_singleton.mp hx

theorem decode_dataLines : ∀ (k : Nat) (l : List uint8_t), l.length ≤ k →
    (dataLines l).flatMap decodeLine = l.map (fun b => b.val) := by
  intro k
  induction k with
  | zero =>
    intro l hl
    have : l = [] := List.length_eq_zero.mp (by omega)
    subst this
    simp [dataLines_nil]
  | succ k ih =>
    intro l hl
    by_cases hshort : l.length ≤ 20
    · by_cases h0 : l = []
      · subst h0; simp [dataLines_nil]
      · rw [dataLines_short l h0 hshort]
        simp [decodeLine_dataLine]
    · have hsplit : l = l.take 20 ++ l.drop 20 := (List.take_append_drop 20 l).symm
      have htake : (l.take 20).length = 20 := by
        rw [List.length_take]; omega
      have hdrop : (l.drop 20).length ≤ k := by
        rw [List.length_drop]; omega
      rw [hsplit, dataLines_append _ _ htake, List.flatMap_cons, decodeLine_dataLine,
        ih _ hdrop, ← List.map_append]

/-- C18: the hex dump is lossless. Reading, in each data line that `log_data`
appends, the text after the leading `x` and before the separator, and decoding
its two-digit hexadecimal groups with the spaces skipped, yields the bytes of
the buffer, all of them and in order. -/
theorem log_data_lossless (fr : Frame) (p : List uint8_t) (n : Nat) (g : Globals)
    (t : TextLog) (hg : g.hext_log = some t) (hlive : t.live = true) (hn : n ≤ p.length) :
    ∃ lines : List (List Char),
      log_data fr p n g = some
        { hext_log := some (t.append ('\n' :: unlines lines)), s_pkt_num := g.s_pkt_num } ∧
      (∀ l ∈ lines, '\n' ∉ l) ∧
      lines.flatMap decodeLine = (p.take n).map (fun b => b.val) := by
  refine ⟨dataLines (p.take n), log_data_eq fr p n g t hg hlive hn, fun l hl => ?_,
    decode_dataLines _ _ (Nat.le_refl _)⟩
  obtain ⟨j, _, rfl⟩ := mem_dataLines _ _ hl
  exact dataLine_no_newline _

/-- Witness of C18: the buffer of 23 bytes. -/
theorem log_data_lossless_witness :
    (open0.hext_log = some sink0 ∧ sink0.live = true ∧ 23 ≤ bytes23.length) ∧
    ∃ lines : List (List Char),
      log_data frame0 bytes23 23 open0 = some
        { hext_log := some (sink0.append ('\n' :: unlines lines)),
          s_pkt_num := open0.s_pkt_num } ∧
      (∀ l ∈ lines, '\n' ∉ l) ∧
      lines.flatMap decodeLine = (bytes23.take 23).map (fun b => b.val) :=
  ⟨⟨rfl, rfl, by decide⟩,
    log_data_lossless frame0 bytes23 23 open0 sink0 rfl rfl (by decide)⟩

/-! ## The stores into the two arrays stay in bounds -/

/-- C19: every store `log_data` makes into `hex` (61 characters) and `txt`
(21 characters) is in bounds. A store succeeds exactly when its index is inside
the array, and `log_data` returns a result, so none of its stores fails. In
detail, the state `s` in which iteration `idx` starts (and, for `idx = n`, in
which the loop ends) has `odx < 20`: the byte is stored at `txt[odx]`, the four
characters of `sprintf` end at `3*odx + 3 <= 60`, and the terminators go to
`txt[odx+1]`, `hex[3*(odx+1)]` with `odx + 1 <= 20` inside the loop and to
`txt[odx]`, `hex[3*odx]` after it; every iteration returns a state. -/
theorem log_data_in_bounds (fr : Frame) (p : List uint8_t) (n : Nat) (g : Globals)
    (t : TextLog) (hg : g.hext_log = some t) (hlive : t.live = true) (hn : n ≤ p.length) :
    (HEX_SIZE = 61 ∧ TXT_SIZE = 21) ∧
    (∀ (size : Nat) (a : Nat → Char) (i : Nat) (c : Char),
      (store size a i c).isSome = true ↔ i < size) ∧
    (∃ g1, log_data fr p n g = some g1) ∧
    (∀ idx, idx ≤ n → ∃ s : DataState,
      log_data_loop p idx 0
        { hex := fr.hex, txt := fr.txt, odx := 0,
          g := { hext_log := some (t.append ['\n']), s_pkt_num := g.s_pkt_num } } = some s ∧
      s.odx < 20 ∧ 3 * s.odx + 3 ≤ 60 ∧ s.odx + 1 ≤ 20 ∧ 3 * (s.odx + 1) ≤ 60 ∧
      (idx < n → ∃ s1, log_data_body p idx s = some s1 ∧ s1.odx < 20)) := by
  refine ⟨⟨rfl, rfl⟩, fun size a i c => ?_, ⟨_, log_data_eq fr p n g t hg hlive hn⟩,
    fun idx hidx => ?_⟩
  · unfold store
    by_cases h : i < size <;> simp [h]
  · have hR0 : Rep t g.s_pkt_num
        { hex := fr.hex, txt := fr.txt, odx := 0,
          g := { hext_log := some (t.append ['\n']), s_pkt_num := g.s_pkt_num } } []
        (t.text ++ ['\n']) :=
      ⟨rfl, by simp [LOG_CHARS], by intro j hj; simp at hj, by intro j hj; simp at hj, rfl⟩
    obtain ⟨s, hs, hR⟩ := log_data_loop_spec p t g.s_pkt_num hlive idx 0 _ _ _ (by omega) hR0
    have hodx : s.odx < 20 := by
      have h1 := hR.odx
      have h2 : _ < 20 := hR.lt
      omega
    refine ⟨s, hs, hodx, by omega, by omega, by omega, fun hlt => ?_⟩
    have hp : idx < p.length := by omega
    obtain ⟨s1, hs1, hR1⟩ := log_data_body_spec p idx p[idx] (List.getElem?_eq_getElem hp)
      t g.s_pkt_num s _ _ hlive hR
    refine ⟨s1, hs1, ?_⟩
    have h1 := hR1.odx
    have h2 : _ < 20 := hR1.lt
    omega

/-- Witness of C19: the buffer of 23 bytes. -/
theorem log_data_in_bounds_witness :
    (open0.hext_log = some sink0 ∧ sink0.live = true ∧ 23 ≤ bytes23.length) ∧
    ((HEX_SIZE = 61 ∧ TXT_SIZE = 21) ∧
    (∀ (size : Nat) (a : Nat → Char) (i : Nat) (c : Char),
      (store size a i c).isSome = true ↔ i < size) ∧
    (∃ g1, log_data frame0 bytes23 23 open0 = some g1) ∧
    (∀ idx, idx ≤ 23 → ∃ s : DataState,
      log_data_loop bytes23 idx 0
        { hex := frame0.hex, txt := frame0.txt, odx := 0,
          g := { hext_log := some (sink0.append ['\n']),
                 s_pkt_num := open0.s_pkt_num } } = some s ∧
      s.odx < 20 ∧ 3 * s.odx + 3 ≤ 60 ∧ s.odx + 1 ≤ 20 ∧ 3 * (s.odx + 1) ≤ 60 ∧
      (idx < 23 → ∃ s1, log_data_body bytes23 idx s = some s1 ∧ s1.odx < 20))) :=
  ⟨⟨rfl, rfl, by decide⟩,
    log_data_in_bounds frame0 bytes23 23 open0 sink0 rfl rfl (by decide)⟩

end LogHext
